/-
Verification of the Carbuying catalog-matching core.

This file gives a shallow embedding, in Lean 4, of the two algorithmic
subsystems of the repository:

* the entity resolver `find_master_car` together with its helpers
  `normalize_make`, `normalize_model` and `similarity_score`
  (backend/data/normalize.py), including a faithful model of Python's
  `difflib.SequenceMatcher(None, a, b).ratio()` as invoked there
  (`isjunk = None`, `autojunk = True`);

* the intent-to-vehicle scoring engine `ScoringEngine`
  (backend/scoring_engine.py): the eight factor scorers, the dynamic
  weight allocator and the weighted aggregation.

Modelling conventions: Python `float`/`int` arithmetic is embedded in `ℚ`
(all constants of the source are decimal, so every computation is exact);
Python strings are Lean `String`s and `str.upper`/`str.lower` are mapped
`Char.toUpper`/`Char.toLower` (exact on the ASCII data the program
handles); Python `dict`/`set` values are embedded as association lists,
lists with membership semantics, or explicit structures whose fields are
the keys actually used; a Python `None`-able value is an `Option`; code
that can raise (`ZeroDivisionError` in `_score_reference_similarity`)
returns an `Option` whose `none` marks the raise.  Database queries in
`find_master_car` (`.first()`, `.all()`, `.limit(1)`) become operations on
the candidate list in its stable catalog order.
-/
import Mathlib

namespace Carbuying

/-! ## Python string primitives -/

/-- Python `str.upper()` on a character list (ASCII-exact). -/
def pyUpperL (l : List Char) : List Char := l.map Char.toUpper

/-- Python `str.lower()` on a character list (ASCII-exact). -/
def pyLowerL (l : List Char) : List Char := l.map Char.toLower

/-- Python `str.upper()`. -/
def pyUpper (s : String) : String := ⟨pyUpperL s.data⟩

/-- Python `str.lower()`. -/
def pyLower (s : String) : String := ⟨pyLowerL s.data⟩

/-- Python `str.strip()`: drop leading and trailing whitespace. -/
def pyStrip (s : String) : String :=
  ⟨((s.data.dropWhile Char.isWhitespace).reverse.dropWhile Char.isWhitespace).reverse⟩

/-- Helper for `pyTitle`: `prevCased` records whether the previous
character was a cased (alphabetic) one. -/
def pyTitleAux : Bool → List Char → List Char
  | _, [] => []
  | prevCased, c :: rest =>
    if c.isAlpha then
      (if prevCased then c.toLower else c.toUpper) :: pyTitleAux true rest
    else
      c :: pyTitleAux false rest

/-- Python `str.title()` (ASCII-exact): the first alphabetic character of
each run is uppercased, the rest lowercased. -/
def pyTitle (s : String) : String := ⟨pyTitleAux false s.data⟩

/-- Helper for `squashWs`: replace each maximal whitespace run by a single
space, mirroring `re.sub(r'\s+', ' ', s)`; the flag records whether we are
inside a whitespace run. -/
def squashWsAux : Bool → List Char → List Char
  | _, [] => []
  | inWs, c :: rest =>
    if c.isWhitespace then
      (if inWs then [] else [' ']) ++ squashWsAux true rest
    else c :: squashWsAux false rest

/-- `re.sub(r'\s+', ' ', s)`. -/
def squashWs (s : String) : String := ⟨squashWsAux false s.data⟩

/-! ## difflib.SequenceMatcher, as called by `similarity_score`

The repository calls `SequenceMatcher(None, s1.upper(), s2.upper()).ratio()`:
`isjunk` is `None` (so the junk set `bjunk` is empty: the junk-extension
loops of `find_longest_match` never run, and the "non-junk" extension
loops test a vacuously true predicate) and `autojunk` is the default
`True` (elements of `b` occurring more than `len(b)//100 + 1` times are
dropped from `b2j` when `len(b) >= 200`). -/

/-- Character at index `i` (indices used are always in bounds). -/
def getc (l : List Char) (i : Nat) : Char := l.getD i ' '

/-- Autojunk popularity: with `len(b) >= 200`, elements occurring more
than `len(b)//100 + 1` times are purged from `b2j`. -/
def isPop (b : List Char) (c : Char) : Prop :=
  200 ≤ b.length ∧ b.length / 100 + 1 < (b.filter (· = c)).length

instance (b : List Char) (c : Char) : Decidable (isPop b c) := by
  unfold isPop; infer_instance

/-- `b2j[c]`: the ascending list of indices of `c` in `b`, after autojunk
purging of popular elements. -/
def b2j (b : List Char) (c : Char) : List Nat :=
  if isPop b c then []
  else (List.range b.length).filter (fun j => getc b j = c)

/-- The inner loop of `find_longest_match`'s dynamic program: scan the
occurrence list of `a[i]` in `b`, building `newj2len` and updating the
best block.  `old` is the `j2len` map of the previous row (`j2len.get`,
defaulting to 0); `j < blo` is `continue`, `j >= bhi` is `break`.
The best triple is `(besti, bestj, bestsize)`. -/
def innerLoop (i blo bhi : Nat) (old : Nat → Nat) :
    List Nat → (Nat → Nat) → Nat × Nat × Nat → ((Nat → Nat) × (Nat × Nat × Nat))
  | [], new, best => (new, best)
  | j :: rest, new, best =>
    if j < blo then innerLoop i blo bhi old rest new best
    else if bhi ≤ j then (new, best)
    else
      let k := (if j = 0 then 0 else old (j - 1)) + 1
      let new' := fun j' => if j' = j then k else new j'
      let best' := if best.2.2 < k then (i + 1 - k, j + 1 - k, k) else best
      innerLoop i blo bhi old rest new' best'

/-- The outer loop of `find_longest_match`'s dynamic program over
`range(alo, ahi)`. -/
def flmLoop (a b : List Char) (blo bhi : Nat) :
    List Nat → (Nat → Nat) → Nat × Nat × Nat → Nat × Nat × Nat
  | [], _, best => best
  | i :: rest, j2len, best =>
    let r := innerLoop i blo bhi j2len (b2j b (getc a i)) (fun _ => 0) best
    flmLoop a b blo bhi rest r.1 r.2

/-- Backward extension of the best block (`while besti > alo and
bestj > blo and a[besti-1] == b[bestj-1]`); fuelled for computability,
`besti + 1` fuel always suffices. -/
def extendBackF (a b : List Char) (alo blo : Nat) :
    Nat → Nat × Nat × Nat → Nat × Nat × Nat
  | 0, best => best
  | fuel + 1, (besti, bestj, bestsize) =>
    if alo < besti ∧ blo < bestj ∧ getc a (besti - 1) = getc b (bestj - 1) then
      extendBackF a b alo blo fuel (besti - 1, bestj - 1, bestsize + 1)
    else (besti, bestj, bestsize)

/-- Forward extension of the best block (`while besti+bestsize < ahi and
bestj+bestsize < bhi and a[besti+bestsize] == b[bestj+bestsize]`);
fuelled, `ahi` fuel always suffices. -/
def extendFwdF (a b : List Char) (ahi bhi besti bestj : Nat) :
    Nat → Nat → Nat
  | 0, bestsize => bestsize
  | fuel + 1, bestsize =>
    if besti + bestsize < ahi ∧ bestj + bestsize < bhi ∧
        getc a (besti + bestsize) = getc b (bestj + bestsize) then
      extendFwdF a b ahi bhi besti bestj fuel (bestsize + 1)
    else bestsize

/-- `SequenceMatcher.find_longest_match(alo, ahi, blo, bhi)` with
`isjunk = None`: dynamic program, then backward and forward extension
(the junk-extension loops are no-ops since `bjunk` is empty). -/
def findLongestMatch (a b : List Char) (alo ahi blo bhi : Nat) : Nat × Nat × Nat :=
  let d := flmLoop a b blo bhi (List.range' alo (ahi - alo)) (fun _ => 0) (alo, blo, 0)
  let e := extendBackF a b alo blo (d.1 + 1) d
  let k := extendFwdF a b ahi bhi e.1 e.2.1 (ahi + 1) e.2.2
  (e.1, e.2.1, k)

/-- `get_matching_blocks`, expressed as the recursion it implements (the
source's queue+sort produces the same multiset of blocks; only sizes and
slices matter below).  Fuelled: `ahi - alo + 1` fuel suffices. -/
def matchingBlocksF (a b : List Char) :
    Nat → Nat → Nat → Nat → Nat → List (Nat × Nat × Nat)
  | 0, _, _, _, _ => []
  | fuel + 1, alo, ahi, blo, bhi =>
    let m := findLongestMatch a b alo ahi blo bhi
    if m.2.2 = 0 then []
    else
      (if alo < m.1 ∧ blo < m.2.1 then matchingBlocksF a b fuel alo m.1 blo m.2.1 else [])
        ++ [m]
        ++ (if m.1 + m.2.2 < ahi ∧ m.2.1 + m.2.2 < bhi then
              matchingBlocksF a b fuel (m.1 + m.2.2) ahi (m.2.1 + m.2.2) bhi else [])

/-- The matching blocks of two full sequences. -/
def matchingBlocks (a b : List Char) : List (Nat × Nat × Nat) :=
  matchingBlocksF a b (a.length + 1) 0 a.length 0 b.length

/-- Sum of the sizes of a list of blocks. -/
def sumSizes (l : List (Nat × Nat × Nat)) : Nat := (l.map (fun m => m.2.2)).sum

/-- Total number of matched elements (the `matches` of `ratio`). -/
def matchedCount (a b : List Char) : Nat := sumSizes (matchingBlocks a b)

/-- `SequenceMatcher.ratio()`: `2*M / T`, and 1.0 when `T == 0`
(`_calculate_ratio`). -/
def ratioQ (a b : List Char) : ℚ :=
  if a.length + b.length = 0 then 1
  else (2 * matchedCount a b : ℚ) / (a.length + b.length : ℚ)

/-- `similarity_score(s1, s2)` from backend/data/normalize.py: 0 when
either string is falsy, else the `SequenceMatcher` ratio of the uppercased
strings. -/
def similarity_score (s1 s2 : String) : ℚ :=
  if s1 = "" ∨ s2 = "" then 0
  else ratioQ (pyUpperL s1.data) (pyUpperL s2.data)

/-! ## Normalization dictionary (backend/data/normalize.py) -/

/-- `MAKE_ALIASES`. -/
def MAKE_ALIASES : List (String × String) :=
  [("MERCEDES", "Mercedes-Benz"), ("MERCEDES BENZ", "Mercedes-Benz"),
   ("MERCEDES-BENZ", "Mercedes-Benz"), ("MB", "Mercedes-Benz"),
   ("VW", "Volkswagen"), ("CHEVY", "Chevrolet"), ("LAND ROVER", "Land Rover"),
   ("LANDROVER", "Land Rover"), ("ALFA ROMEO", "Alfa Romeo"),
   ("ALFA", "Alfa Romeo"), ("ASTON MARTIN", "Aston Martin"),
   ("ROLLS ROYCE", "Rolls-Royce"), ("ROLLS-ROYCE", "Rolls-Royce")]

/-- `MODEL_ALIASES`. -/
def MODEL_ALIASES : List (String × String) :=
  [("3 SERIES", "3 Series"), ("4 SERIES", "4 Series"), ("5 SERIES", "5 Series"),
   ("7 SERIES", "7 Series"), ("X3", "X3"), ("X5", "X5"),
   ("C CLASS", "C-Class"), ("C-CLASS", "C-Class"),
   ("E CLASS", "E-Class"), ("E-CLASS", "E-Class"),
   ("S CLASS", "S-Class"), ("S-CLASS", "S-Class"),
   ("GLC CLASS", "GLC-Class"), ("GLC-CLASS", "GLC-Class"),
   ("GLE CLASS", "GLE-Class"), ("GLE-CLASS", "GLE-Class"),
   ("CIVIC SI", "Civic Si"), ("CIVIC TYPE R", "Civic Type R"),
   ("MUSTANG GT", "Mustang")]

/-- `normalize_make`. -/
def normalize_make (make : String) : String :=
  if make = "" then make
  else
    let upperMake := pyStrip (pyUpper make)
    match MAKE_ALIASES.lookup upperMake with
    | some v => v
    | none =>
      let normalized := pyTitle (pyStrip make)
      if pyUpper normalized = "BMW" then "BMW"
      else if pyUpper normalized = "GMC" then "GMC"
      else if pyUpper normalized = "RAM" then "Ram"
      else if pyUpper normalized = "MINI" then "MINI"
      else normalized

/-- `normalize_model`. -/
def normalize_model (model : String) : String :=
  if model = "" then model
  else
    let upperModel := pyStrip (pyUpper model)
    match MODEL_ALIASES.lookup upperModel with
    | some v => v
    | none => squashWs (pyStrip model)

/-! ## Entity resolver (`find_master_car`)

A `CarMaster` row carries the columns the resolver reads.  The SQL
session becomes the catalog list in its stable iteration order:
`.scalars().first()` is the first list element satisfying the `where`
clause, `.scalars().all()` the filtered list, `.limit(1) ... .first()`
the head of the filtered list. -/

structure CarMaster where
  id : Nat
  make : String
  model : String
  year : Int
deriving Repr, DecidableEq

/-- The resolution tier of a `find_master_car` call, following the
branch that produced its return value (`ResolutionResult.tier` of the
specification): `EXACT` for the exact-match query, `FUZZY` for the
fuzzy-model loop, `FALLBACK` for the same-make/year `limit(1)` query,
`NONE` for the final `return None`. -/
inductive Tier | EXACT | FUZZY | FALLBACK | NONE
deriving Repr, DecidableEq

/-- The `where` clause of the exact-match query: equal normalized make
(case-insensitively), equal normalized model (case-insensitively) and
equal year. -/
def exactPred (normalizedMake normalizedModel : String) (year : Int)
    (c : CarMaster) : Bool :=
  pyUpper c.make == pyUpper normalizedMake &&
  pyUpper c.model == pyUpper normalizedModel && c.year == year

/-- The `where` clause of the fuzzy and fallback queries: equal
normalized make and equal year. -/
def makeYearPred (normalizedMake : String) (year : Int) (c : CarMaster) : Bool :=
  pyUpper c.make == pyUpper normalizedMake && c.year == year

/-- One step of the fuzzy-match loop of `find_master_car`
(`if score > best_score and score >= threshold`). -/
def fuzzyStep (normalizedModel : String) (threshold : ℚ)
    (acc : Option CarMaster × ℚ) (c : CarMaster) : Option CarMaster × ℚ :=
  let score := similarity_score normalizedModel c.model
  if acc.2 < score ∧ threshold ≤ score then (some c, score) else acc

/-- `find_master_car(session, make, model, year, trim, threshold)`,
returning the tier taken together with the `Optional[Tuple[int, float]]`
result (`(master_car_id, confidence)` or `None`).  `trim` is accepted and
ignored exactly as in the source. -/
def find_master_car (candidates : List CarMaster) (make model : String)
    (year : Int) (threshold : ℚ) : Tier × Option (Nat × ℚ) :=
  let normalizedMake := normalize_make make
  let normalizedModel := normalize_model model
  let exactMatch := candidates.find? (exactPred normalizedMake normalizedModel year)
  match exactMatch with
  | some c => (Tier.EXACT, some (c.id, 1))
  | none =>
    let cands := candidates.filter (makeYearPred normalizedMake year)
    let best := cands.foldl (fuzzyStep normalizedModel threshold)
      ((none : Option CarMaster), (0 : ℚ))
    match best.1 with
    | some c => (Tier.FUZZY, some (c.id, best.2))
    | none =>
      match cands.head? with
      | some c => (Tier.FALLBACK, some (c.id, 3 / 10))
      | none => (Tier.NONE, none)

/-! ## Data model (backend/models.py)

Fields not read by the scoring engine (`torque_lb_ft`, `fuel_economy_mpg`,
`price_range`, the listing data) are omitted.  Numeric fields are all `ℚ`
(the pydantic models use `int`/`float`). -/

structure Car where
  id : String
  make : String
  model : String
  year : Int
  trim : String
  avg_price : ℚ
  power_hp : ℚ
  drivetrain : String
  body_type : String
  reliability_score : ℚ
  ownership_cost_score : ℚ
  driving_feel_tags : List String
  class_tags : List String
  emotional_tags : List String
  zero_to_sixty : ℚ
deriving Repr, DecidableEq

structure UserIntent where
  budget_min : Option ℚ
  budget_max : Option ℚ
  performance_priority : ℚ
  reliability_priority : ℚ
  comfort_priority : ℚ
  drivetrain : Option String
  body_style : Option String
  emotional_tags : List String
  negative_tags : List String
  reference_car : Option String
deriving Repr, DecidableEq

/-- Python truthiness of an `Optional[str]` field (`None` and `""` are
falsy). -/
def strTruthy : Option String → Bool
  | none => false
  | some s => s ≠ ""

/-- Python truthiness of an `Optional[number]` field (`None` and `0` are
falsy). -/
def numTruthy : Option ℚ → Bool
  | none => false
  | some q => q ≠ 0

/-! ## Factor scorers (backend/scoring_engine.py)

Each scorer returns `(score, optional reason, optional tradeoff)`.
Reason/tradeoff strings are built by plain concatenation; Python's
`{x:,}` thousands-separator formatting is abstracted to `toString`
(only presence and identity of the texts matter below). -/

/-- `ScoringEngine.EMOTIONAL_SIMILARITIES` (a missing key is the empty
list, matching `wanted_lower in EMOTIONAL_SIMILARITIES` being false). -/
def EMOTIONAL_SIMILARITIES (tag : String) : List String :=
  if tag = "fun" then ["exciting", "sporty", "engaging", "playful", "thrilling"]
  else if tag = "exciting" then ["fun", "aggressive", "powerful", "thrilling", "passionate"]
  else if tag = "aggressive" then ["exciting", "powerful", "bold", "mean"]
  else if tag = "sporty" then ["fun", "engaging", "athletic", "dynamic"]
  else if tag = "luxurious" then ["sophisticated", "premium", "refined", "prestigious", "classy"]
  else if tag = "sophisticated" then ["luxurious", "refined", "elegant", "classy"]
  else if tag = "reliable" then ["dependable", "trustworthy", "sensible"]
  else if tag = "practical" then ["sensible", "useful", "value"]
  else if tag = "comfortable" then ["smooth", "refined", "relaxing"]
  else if tag = "value" then ["practical", "sensible", "surprising"]
  else if tag = "fast" then ["powerful", "quick", "exciting"]
  else if tag = "unique" then ["special", "passionate", "distinctive"]
  else []

/-- `ScoringEngine.DRIVING_FEEL_TO_EMOTION`. -/
def DRIVING_FEEL_TO_EMOTION (tag : String) : List String :=
  if tag = "sporty" then ["fun", "exciting", "sporty"]
  else if tag = "responsive" then ["fun", "engaging", "sporty"]
  else if tag = "engaging" then ["fun", "exciting", "sporty"]
  else if tag = "raw" then ["exciting", "passionate", "aggressive"]
  else if tag = "sharp" then ["sporty", "engaging", "exciting"]
  else if tag = "refined" then ["sophisticated", "luxurious", "comfortable"]
  else if tag = "smooth" then ["comfortable", "luxurious", "refined"]
  else if tag = "composed" then ["reliable", "sophisticated", "comfortable"]
  else if tag = "powerful" then ["fast", "exciting", "aggressive"]
  else if tag = "balanced" then ["practical", "reliable", "sporty"]
  else if tag = "comfortable" then ["comfortable", "practical", "reliable"]
  else if tag = "planted" then ["reliable", "sophisticated", "sporty"]
  else if tag = "precise" then ["sporty", "engaging", "sophisticated"]
  else if tag = "instant" then ["fast", "exciting", "modern"]
  else if tag = "quiet" then ["comfortable", "luxurious", "refined"]
  else if tag = "playful" then ["fun", "exciting", "sporty"]
  else if tag = "direct" then ["engaging", "sporty", "raw"]
  else []

/-- `ScoringEngine.NEGATIVE_OPPOSITES`. -/
def NEGATIVE_OPPOSITES (tag : String) : List String :=
  if tag = "boring" then ["fun", "exciting", "engaging", "sporty", "aggressive"]
  else if tag = "slow" then ["fast", "powerful", "exciting"]
  else if tag = "unreliable" then ["reliable", "dependable"]
  else if tag = "expensive" then ["value", "practical"]
  else if tag = "uncomfortable" then ["comfortable", "luxurious", "refined"]
  else if tag = "numb" then ["engaging", "raw", "sporty"]
  else []

/-- `ScoringEngine._score_price`. -/
def score_price (car : Car) (intent : UserIntent) : ℚ × Option String × Option String :=
  if ¬ numTruthy intent.budget_max then (80, none, none)
  else
    let budget := intent.budget_max.getD 0
    let avgPrice := car.avg_price
    if avgPrice ≤ budget then
      let headroom := (budget - avgPrice) / budget
      if 1/5 < headroom then
        (100, some ("Well under budget at ~$" ++ toString avgPrice), none)
      else
        (95, some ("Fits your $" ++ toString budget ++ " budget nicely"), none)
    else
      let overPercent := (avgPrice - budget) / budget
      if overPercent < 1/10 then
        (75, none, some ("Slightly over budget (~$" ++ toString avgPrice ++ ")"))
      else if overPercent < 1/5 then
        (50, none, some ("Above budget at ~$" ++ toString avgPrice))
      else
        (20, none, some ("Significantly over budget at ~$" ++ toString avgPrice))

/-- `ScoringEngine._score_performance`. -/
def score_performance (car : Car) (intent : UserIntent) : ℚ × Option String × Option String :=
  let perfPriority := intent.performance_priority
  let zeroSixty := car.zero_to_sixty
  let topTwoTiers := zeroSixty ≤ 5           -- tier is excellent or great
  let baseScore : ℚ :=
    if zeroSixty ≤ 9/2 then 100
    else if zeroSixty ≤ 5 then 85
    else if zeroSixty ≤ 11/2 then 70
    else if zeroSixty ≤ 6 then 55
    else 40
  if 7/10 < perfPriority then
    if topTwoTiers then
      (baseScore, some ("Seriously quick (0-60 in " ++ toString zeroSixty ++ "s)"), none)
    else
      (baseScore, none, some ("Not the quickest (" ++ toString zeroSixty ++ "s 0-60)"))
  else if perfPriority < 2/5 then
    (max baseScore 70, none, none)
  else
    if topTwoTiers then
      (baseScore, some (toString car.power_hp ++ "hp provides plenty of power"), none)
    else (baseScore, none, none)

/-- `ScoringEngine._score_reliability`. -/
def score_reliability (car : Car) (intent : UserIntent) : ℚ × Option String × Option String :=
  let relPriority := intent.reliability_priority
  let relScore := car.reliability_score
  let baseScore := relScore * 10
  if 7/10 < relPriority then
    if 8 ≤ relScore then (baseScore, some "Excellent reliability record", none)
    else if 7 ≤ relScore then (baseScore, some "Good reliability reputation", none)
    else (baseScore, none,
      some ("Reliability could be a concern (" ++ toString relScore ++ "/10)"))
  else if relPriority < 2/5 then
    (max baseScore 60, none, none)
  else
    if 8 ≤ relScore then (baseScore, some "Known for being dependable", none)
    else (baseScore, none, none)

/-- `ScoringEngine._score_drivetrain`. -/
def score_drivetrain (car : Car) (intent : UserIntent) : ℚ × Option String × Option String :=
  if ¬ strTruthy intent.drivetrain then (80, none, none)
  else
    let want := intent.drivetrain.getD ""
    if pyUpper car.drivetrain = pyUpper want then
      (100, some (car.drivetrain ++ " as requested"), none)
    else if pyUpper want = "AWD" ∧ pyUpper car.drivetrain ≠ "AWD" then
      (40, none, some ("Only available in " ++ car.drivetrain))
    else
      (60, none, some (car.drivetrain ++ " instead of " ++ want))

/-- `ScoringEngine._score_body_style`. -/
def score_body_style (car : Car) (intent : UserIntent) : ℚ :=
  if ¬ strTruthy intent.body_style then 80
  else
    let carBody := pyLower car.body_type
    let prefBody := pyLower (intent.body_style.getD "")
    if carBody = prefBody then 100
    else
      let similarGroups : List (List String) :=
        [["sedan", "liftback"], ["coupe", "convertible"],
         ["hatchback", "liftback", "hot-hatch"], ["suv", "crossover"]]
      if similarGroups.any (fun g => carBody ∈ g ∧ prefBody ∈ g) then 80
      else 50

/-- The car's emotional profile: its `emotional_tags` (lowercased) plus
the emotions derived from driving-feel tags and class tags.  The Python
`set` is embedded as a list; only membership is ever used. -/
def carEmotions (car : Car) : List String :=
  car.emotional_tags.map pyLower
    ++ (car.driving_feel_tags.flatMap (fun f => DRIVING_FEEL_TO_EMOTION (pyLower f)))
    ++ (car.class_tags.flatMap (fun cl =>
          let c := pyLower cl
          if c = "luxury" then ["luxurious", "sophisticated", "premium"]
          else if c = "performance" then ["exciting", "fast", "fun"]
          else if c = "sport" then ["sporty", "fun", "engaging"]
          else []))

/-- One wanted-tag step of `_score_emotional`'s positive loop: the added
score and whether the tag matched (directly or via a similar tag). -/
def emotionalPosStep (emotions : List String) (wanted : String) : ℚ × Bool :=
  let w := pyLower wanted
  if w ∈ emotions then (20, true)
  else if (EMOTIONAL_SIMILARITIES w).any (fun t => t ∈ emotions) then (12, true)
  else (0, false)

/-- One avoid-tag step of `_score_emotional`'s negative loop:
`(penalty added, positive bonus added, reasons emitted, tradeoffs emitted)`. -/
def emotionalNegStep (emotions : List String) (avoid : String) :
    ℚ × ℚ × List String × List String :=
  let a := pyLower avoid
  if a ∈ emotions then (25, 0, [], ["May feel " ++ a])
  else if (NEGATIVE_OPPOSITES a).any (fun t => t ∈ emotions) then
    (0, 10, ["Definitely not " ++ a], [])
  else (0, 0, [], [])

/-- `ScoringEngine._score_emotional`. -/
def score_emotional (car : Car) (intent : UserIntent) : ℚ × List String × List String :=
  let emotions := carEmotions car
  let positiveScore : ℚ := (intent.emotional_tags.map
    (fun t => (emotionalPosStep emotions t).1)).sum
  let positiveMatches := intent.emotional_tags.filter
    (fun t => (emotionalPosStep emotions t).2)
  let posReasons : List String :=
    if positiveMatches ≠ [] then
      ["Matches your vibe: " ++ String.intercalate ", " (positiveMatches.take 3)]
    else []
  let negativePenalty : ℚ := (intent.negative_tags.map
    (fun t => (emotionalNegStep emotions t).1)).sum
  let oppositeBonus : ℚ := (intent.negative_tags.map
    (fun t => (emotionalNegStep emotions t).2.1)).sum
  let negReasons := intent.negative_tags.flatMap
    (fun t => (emotionalNegStep emotions t).2.2.1)
  let tradeoffs := intent.negative_tags.flatMap
    (fun t => (emotionalNegStep emotions t).2.2.2)
  let reasons := posReasons ++ negReasons
  if intent.emotional_tags = [] ∧ intent.negative_tags = [] then
    (70, reasons, tradeoffs)
  else
    let finalScore := 50 + min (positiveScore + oppositeBonus) 50 - min negativePenalty 40
    (max 0 (min 100 finalScore), reasons, tradeoffs)

/-- The additive point total of `_score_reference_similarity` (each
condition independent): drivetrain, power within 10/20/30 percent, 0-60
within 0.3/0.6/1.0 s, body type, price within 10/20/30 percent, +10 per
shared class tag, +5 per shared emotional tag (`set` intersections, so
duplicates collapse). -/
def referenceSimilarityPoints (car reference : Car) : ℚ :=
  (if car.drivetrain = reference.drivetrain then (15 : ℚ) else 0)
  + (if |car.power_hp - reference.power_hp| / reference.power_hp < 1 / 10 then 20
     else if |car.power_hp - reference.power_hp| / reference.power_hp < 1 / 5 then 12
     else if |car.power_hp - reference.power_hp| / reference.power_hp < 3 / 10 then 5
     else 0)
  + (if |car.zero_to_sixty - reference.zero_to_sixty| < 3 / 10 then 15
     else if |car.zero_to_sixty - reference.zero_to_sixty| < 3 / 5 then 10
     else if |car.zero_to_sixty - reference.zero_to_sixty| < 1 then 5 else 0)
  + (if car.body_type = reference.body_type then 15 else 0)
  + (if |car.avg_price - reference.avg_price| / reference.avg_price < 1 / 10 then 15
     else if |car.avg_price - reference.avg_price| / reference.avg_price < 1 / 5 then 10
     else if |car.avg_price - reference.avg_price| / reference.avg_price < 3 / 10 then 5
     else 0)
  + 10 * ((car.class_tags.dedup.filter (fun t => t ∈ reference.class_tags)).length : ℚ)
  + 5 * ((car.emotional_tags.dedup.filter
      (fun t => t ∈ reference.emotional_tags)).length : ℚ)

/-- `ScoringEngine._score_reference_similarity`.  The function divides by
`reference.power_hp` and `reference.avg_price` without a guard; a zero
divisor raises `ZeroDivisionError`, embedded as `none`. -/
def score_reference_similarity (car reference : Car) : Option (ℚ × Option String) :=
  if reference.power_hp = 0 ∨ reference.avg_price = 0 then none
  else
    let finalScore := min 100 (referenceSimilarityPoints car reference)
    let reason : Option String :=
      if 70 < finalScore then
        some ("Very similar to the " ++ reference.make ++ " " ++ reference.model)
      else if 50 < finalScore then
        some ("Comparable to the " ++ reference.make ++ " " ++ reference.model)
      else none
    some (finalScore, reason)

/-- `ScoringEngine._score_ownership_cost`. -/
def score_ownership_cost (car : Car) : ℚ := car.ownership_cost_score * 10

/-! ## Weight allocation and aggregation -/

/-- The `scores` dictionary assembled by `_score_car`: the seven factors
always present plus the optional `reference` entry. -/
structure FactorScores where
  price : ℚ
  performance : ℚ
  reliability : ℚ
  drivetrain : ℚ
  body_style : ℚ
  emotional : ℚ
  ownership : ℚ
  reference : Option ℚ
deriving Repr, DecidableEq

/-- The `weights` dictionary of `_calculate_weighted_score`: the seven
base keys plus the optional `reference` key. -/
structure FactorWeights where
  price : ℚ
  performance : ℚ
  reliability : ℚ
  drivetrain : ℚ
  body_style : ℚ
  emotional : ℚ
  ownership : ℚ
  reference : Option ℚ
deriving Repr, DecidableEq

/-- The base weights of `_calculate_weighted_score`. -/
def baseWeights : FactorWeights :=
  ⟨1/5, 3/20, 3/20, 1/10, 1/10, 1/5, 1/10, none⟩

/-- Base weights after inserting `reference = 0.15` and scaling every
other key by `0.85`. -/
def scaledRefWeights : FactorWeights :=
  ⟨17/20 * (1/5), 17/20 * (3/20), 17/20 * (3/20), 17/20 * (1/10),
   17/20 * (1/10), 17/20 * (1/5), 17/20 * (1/10), some (3/20)⟩

/-- The three priority-driven overrides of `_calculate_weighted_score`,
each replacing the current value of its keys. -/
def applyOverrides (intent : UserIntent) (w : FactorWeights) : FactorWeights :=
  let w := if 7/10 < intent.performance_priority then
    { w with performance := 1/4, emotional := 3/20 } else w
  let w := if 7/10 < intent.reliability_priority then
    { w with reliability := 11/50, ownership := 3/20 } else w
  if strTruthy intent.drivetrain then { w with drivetrain := 3/20 } else w

/-- The full weight computation of `_calculate_weighted_score`:
`hasReference` is the `has_reference` argument, `refInScores` is
`'reference' in scores`. -/
def computeWeights (intent : UserIntent) (hasReference refInScores : Bool) : FactorWeights :=
  applyOverrides intent
    (if hasReference ∧ refInScores then scaledRefWeights else baseWeights)

/-- `total_weight = sum(weights.get(k, 0) for k in scores.keys())`:
the seven base keys are always present in `weights`; the `reference` key
contributes only when present in `scores` (then `weights.get` defaults
to 0 if absent from `weights`). -/
def totalWeight (scores : FactorScores) (w : FactorWeights) : ℚ :=
  w.price + w.performance + w.reliability + w.drivetrain + w.body_style
    + w.emotional + w.ownership
    + (match scores.reference with
       | some _ => (w.reference.getD 0)
       | none => 0)

/-- `weighted_sum = sum(scores[k] * weights.get(k, 0.1) for k in scores)`. -/
def weightedSum (scores : FactorScores) (w : FactorWeights) : ℚ :=
  scores.price * w.price + scores.performance * w.performance
    + scores.reliability * w.reliability + scores.drivetrain * w.drivetrain
    + scores.body_style * w.body_style + scores.emotional * w.emotional
    + scores.ownership * w.ownership
    + (match scores.reference with
       | some s => s * (w.reference.getD (1/10))
       | none => 0)

/-- `ScoringEngine._calculate_weighted_score`. -/
def calculate_weighted_score (scores : FactorScores) (intent : UserIntent)
    (hasReference : Bool) : ℚ :=
  let w := computeWeights intent hasReference scores.reference.isSome
  let tw := totalWeight scores w
  let ws := weightedSum scores w
  if 0 < tw then (ws / tw) * tw else 50

/-! ## `_score_car` -/

/-- Append an optional reason/tradeoff (`if r: reasons.append(r)`). -/
def appOpt (l : List String) : Option String → List String
  | some s => l ++ [s]
  | none => l

/-- `ScoringEngine._score_car`, also exposing the factor-score dictionary.
Returns `none` exactly when the un-guarded divisions of
`_score_reference_similarity` raise. -/
def score_car_full (car : Car) (intent : UserIntent) (referenceCar : Option Car) :
    Option (FactorScores × ℚ × List String × List String) :=
  let pr := score_price car intent
  let pe := score_performance car intent
  let re := score_reliability car intent
  let dr := score_drivetrain car intent
  let bo := score_body_style car intent
  let em := score_emotional car intent
  let reasons0 := appOpt (appOpt (appOpt (appOpt [] pr.2.1) pe.2.1) re.2.1) dr.2.1
    ++ em.2.1
  let tradeoffs0 := appOpt (appOpt (appOpt (appOpt [] pr.2.2) pe.2.2) re.2.2) dr.2.2
    ++ em.2.2
  let refPart : Option (Option ℚ × List String) :=
    match referenceCar with
    | some ref =>
      if car.id ≠ ref.id then
        match score_reference_similarity car ref with
        | some (s, r) => some (some s, appOpt [] r)
        | none => none
      else some (none, [])
    | none => some (none, [])
  match refPart with
  | none => none
  | some (refScore, refReasons) =>
    let ow := score_ownership_cost car
    let scores : FactorScores := ⟨pr.1, pe.1, re.1, dr.1, bo, em.1, ow, refScore⟩
    let finalScore := calculate_weighted_score scores intent referenceCar.isSome
    some (scores, finalScore, (reasons0 ++ refReasons).take 4, tradeoffs0.take 3)

/-- `_score_car`'s public result `(score, reasons, tradeoffs)`. -/
def score_car (car : Car) (intent : UserIntent) (referenceCar : Option Car) :
    Option (ℚ × List String × List String) :=
  (score_car_full car intent referenceCar).map (fun r => r.2)

/-! ## Correctness lemmas for the SequenceMatcher embedding

The matching blocks found by `find_longest_match` are genuine common
blocks of `a` and `b`, lying inside the region searched.  These facts
drive everything proved about `ratio`: each block's size is bounded by
both region widths, so the matched count is at most `min |a| |b|`, the
ratio is at most 1, and a ratio of exactly 1 forces the two sequences to
be equal. -/

/-- `a[i:i+k] == b[j:j+k]`, stated pointwise. -/
def blockEq (a b : List Char) (i j k : Nat) : Prop :=
  ∀ t, t < k → getc a (i + t) = getc b (j + t)

/-- Invariant of the `j2len` map: an entry `m j = v > 0` records a common
block of length `v` ending at `a`-index `iEnd - 1` and `b`-index `j`,
lying inside `[alo, iEnd) × [blo, bhi)`. -/
def EntryInv (a b : List Char) (alo blo bhi iEnd : Nat) (m : Nat → Nat) : Prop :=
  ∀ j, 0 < m j → j < bhi ∧ blo + m j ≤ j + 1 ∧ alo + m j ≤ iEnd ∧
    blockEq a b (iEnd - m j) (j + 1 - m j) (m j)

/-- Invariant of the running best block `(besti, bestj, bestsize)`. -/
def BestInv (a b : List Char) (alo ahi blo bhi : Nat) (best : Nat × Nat × Nat) : Prop :=
  alo ≤ best.1 ∧ blo ≤ best.2.1 ∧
  (best.2.2 = 0 → best.1 = alo ∧ best.2.1 = blo) ∧
  (0 < best.2.2 → best.1 + best.2.2 ≤ ahi ∧ best.2.1 + best.2.2 ≤ bhi) ∧
  blockEq a b best.1 best.2.1 best.2.2

lemma blockEq_zero (a b : List Char) (i j : Nat) : blockEq a b i j 0 :=
  fun t ht => absurd ht (Nat.not_lt_zero t)

lemma b2j_mem {b : List Char} {c : Char} {j : Nat} (h : j ∈ b2j b c) :
    getc b j = c ∧ j < b.length := by
  unfold b2j at h
  split at h
  · simp at h
  · simp only [List.mem_filter, List.mem_range, decide_eq_true_eq] at h
    exact ⟨h.2, h.1⟩

lemma innerLoop_cons_skip {i blo bhi : Nat} {old new : Nat → Nat} {j : Nat}
    {rest : List Nat} {best : Nat × Nat × Nat} (h1 : j < blo) :
    innerLoop i blo bhi old (j :: rest) new best =
      innerLoop i blo bhi old rest new best := by
  rw [innerLoop]; simp [h1]

lemma innerLoop_cons_stop {i blo bhi : Nat} {old new : Nat → Nat} {j : Nat}
    {rest : List Nat} {best : Nat × Nat × Nat} (h1 : ¬ j < blo) (h2 : bhi ≤ j) :
    innerLoop i blo bhi old (j :: rest) new best = (new, best) := by
  rw [innerLoop]; simp [h1, h2]

lemma innerLoop_cons_proc {i blo bhi : Nat} {old new : Nat → Nat} {j : Nat}
    {rest : List Nat} {best : Nat × Nat × Nat} (h1 : ¬ j < blo) (h2 : ¬ bhi ≤ j) :
    innerLoop i blo bhi old (j :: rest) new best =
      innerLoop i blo bhi old rest
        (fun j' => if j' = j then (if j = 0 then 0 else old (j - 1)) + 1 else new j')
        (if best.2.2 < (if j = 0 then 0 else old (j - 1)) + 1 then
          (i + 1 - ((if j = 0 then 0 else old (j - 1)) + 1),
           j + 1 - ((if j = 0 then 0 else old (j - 1)) + 1),
           (if j = 0 then 0 else old (j - 1)) + 1)
         else best) := by
  rw [innerLoop]; simp [h1, h2]

lemma innerLoop_inv {a b : List Char} {alo ahi blo bhi i : Nat} {old : Nat → Nat}
    (hi1 : alo ≤ i) (hi2 : i < ahi)
    (hold : EntryInv a b alo blo bhi i old) :
    ∀ (P : List Nat), (∀ j ∈ P, getc b j = getc a i) →
    ∀ (new : Nat → Nat) (best : Nat × Nat × Nat),
      EntryInv a b alo blo bhi (i + 1) new →
      BestInv a b alo ahi blo bhi best →
      EntryInv a b alo blo bhi (i + 1) (innerLoop i blo bhi old P new best).1 ∧
      BestInv a b alo ahi blo bhi (innerLoop i blo bhi old P new best).2 := by
  intro P
  induction P with
  | nil => intro _ new best hnew hbest; exact ⟨hnew, hbest⟩
  | cons j rest ih =>
    intro hP new best hnew hbest
    have hPj : getc b j = getc a i := hP j (List.mem_cons_self j rest)
    have hPrest : ∀ x ∈ rest, getc b x = getc a i :=
      fun x hx => hP x (List.mem_cons_of_mem j hx)
    by_cases h1 : j < blo
    · rw [innerLoop_cons_skip h1]
      exact ih hPrest new best hnew hbest
    · by_cases h2 : bhi ≤ j
      · rw [innerLoop_cons_stop h1 h2]
        exact ⟨hnew, hbest⟩
      · rw [innerLoop_cons_proc h1 h2]
        push_neg at h1 h2
        generalize hv : (if j = 0 then 0 else old (j - 1)) = v
        have hkfacts : blo + (v + 1) ≤ j + 1 ∧ alo + (v + 1) ≤ i + 1 ∧
            blockEq a b (i + 1 - (v + 1)) (j + 1 - (v + 1)) (v + 1) := by
          rcases Nat.eq_zero_or_pos v with hv0 | hvpos
          · subst hv0
            refine ⟨by omega, by omega, ?_⟩
            intro t ht
            have ht0 : t = 0 := by omega
            subst ht0
            have e1 : i + 1 - (0 + 1) + 0 = i := by omega
            have e2 : j + 1 - (0 + 1) + 0 = j := by omega
            rw [e1, e2]
            exact hPj.symm
          · have hvj : j ≠ 0 := by
              intro hj0
              rw [if_pos hj0] at hv
              omega
            rw [if_neg hvj] at hv
            have hcore := hold (j - 1) (by omega)
            rw [hv] at hcore
            obtain ⟨hb1, hb2, hb3, hb4⟩ := hcore
            refine ⟨by omega, by omega, ?_⟩
            intro t ht
            rcases Nat.lt_or_ge t v with htv | htv
            · have := hb4 t htv
              have e1 : i + 1 - (v + 1) + t = i - v + t := by omega
              have e2 : j + 1 - (v + 1) + t = j - 1 + 1 - v + t := by omega
              rw [e1, e2]
              exact this
            · have htv' : t = v := by omega
              have e1 : i + 1 - (v + 1) + t = i := by omega
              have e2 : j + 1 - (v + 1) + t = j := by omega
              rw [e1, e2]
              exact hPj.symm
        have hnew' : EntryInv a b alo blo bhi (i + 1)
            (fun j' => if j' = j then v + 1 else new j') := by
          intro j' hj'
          by_cases hjj : j' = j
          · subst hjj
            simp only [if_pos rfl]
            exact ⟨h2, hkfacts.1, hkfacts.2.1, hkfacts.2.2⟩
          · simp only [if_neg hjj] at hj' ⊢
            exact hnew j' hj'
        have hbest' : BestInv a b alo ahi blo bhi
            (if best.2.2 < v + 1 then (i + 1 - (v + 1), j + 1 - (v + 1), v + 1) else best) := by
          by_cases hlt : best.2.2 < v + 1
          · rw [if_pos hlt]
            have hc1 := hkfacts.1
            have hc2 := hkfacts.2.1
            exact ⟨show alo ≤ i + 1 - (v + 1) by omega,
              show blo ≤ j + 1 - (v + 1) by omega,
              fun h0 => absurd h0 (Nat.succ_ne_zero v),
              fun _ => ⟨show i + 1 - (v + 1) + (v + 1) ≤ ahi by omega,
                show j + 1 - (v + 1) + (v + 1) ≤ bhi by omega⟩,
              hkfacts.2.2⟩
          · rw [if_neg hlt]
            exact hbest
        exact ih hPrest _ _ hnew' hbest'

lemma flmLoop_inv {a b : List Char} {alo ahi blo bhi : Nat} :
    ∀ (n i0 : Nat) (m : Nat → Nat) (best : Nat × Nat × Nat),
      alo ≤ i0 → i0 + n ≤ ahi →
      EntryInv a b alo blo bhi i0 m →
      BestInv a b alo ahi blo bhi best →
      BestInv a b alo ahi blo bhi
        (flmLoop a b blo bhi (List.range' i0 n) m best) := by
  intro n
  induction n with
  | zero => intro i0 m best _ _ _ hbest; simpa [flmLoop] using hbest
  | succ n ih =>
    intro i0 m best h1 h2 hm hbest
    rw [List.range'_succ, flmLoop]
    have hi2 : i0 < ahi := by omega
    have hP : ∀ j ∈ b2j b (getc a i0), getc b j = getc a i0 :=
      fun j hj => (b2j_mem hj).1
    have hnew0 : EntryInv a b alo blo bhi (i0 + 1) (fun _ => 0) := by
      intro j hj; simp at hj
    have h := innerLoop_inv h1 hi2 hm (b2j b (getc a i0)) hP (fun _ => 0) best hnew0 hbest
    exact ih (i0 + 1) _ _ (by omega) (by omega) h.1 h.2

lemma extendBackF_inv {a b : List Char} {alo ahi blo bhi : Nat} :
    ∀ (fuel besti bestj bestsize : Nat), besti < fuel →
      BestInv a b alo ahi blo bhi (besti, bestj, bestsize) →
      BestInv a b alo ahi blo bhi
        (extendBackF a b alo blo fuel (besti, bestj, bestsize)) := by
  intro fuel
  induction fuel with
  | zero => intro besti _ _ h; omega
  | succ fuel ih =>
    intro besti bestj bestsize hfuel hbest
    rw [extendBackF]
    by_cases hg : alo < besti ∧ blo < bestj ∧ getc a (besti - 1) = getc b (bestj - 1)
    · simp only [if_pos hg]
      simp only [BestInv] at hbest
      obtain ⟨hb1, hb2, hb3, hb4, hb5⟩ := hbest
      have hbnds : besti + bestsize ≤ ahi ∧ bestj + bestsize ≤ bhi := by
        rcases Nat.eq_zero_or_pos bestsize with h0 | hpos
        · obtain ⟨e1, e2⟩ := hb3 h0; omega
        · exact hb4 hpos
      have hbest' : BestInv a b alo ahi blo bhi (besti - 1, bestj - 1, bestsize + 1) := by
        refine ⟨show alo ≤ besti - 1 by omega, show blo ≤ bestj - 1 by omega,
          fun h0 => absurd h0 (Nat.succ_ne_zero bestsize),
          fun _ => ⟨show besti - 1 + (bestsize + 1) ≤ ahi by omega,
            show bestj - 1 + (bestsize + 1) ≤ bhi by omega⟩, ?_⟩
        show blockEq a b (besti - 1) (bestj - 1) (bestsize + 1)
        intro t ht
        rcases Nat.eq_zero_or_pos t with ht0 | htpos
        · subst ht0
          have e1 : besti - 1 + 0 = besti - 1 := by omega
          have e2 : bestj - 1 + 0 = bestj - 1 := by omega
          rw [e1, e2]; exact hg.2.2
        · have := hb5 (t - 1) (by omega)
          have e1 : besti - 1 + t = besti + (t - 1) := by omega
          have e2 : bestj - 1 + t = bestj + (t - 1) := by omega
          rw [e1, e2]; exact this
      exact ih (besti - 1) (bestj - 1) (bestsize + 1) (by omega) hbest'
    · simp only [if_neg hg]
      exact hbest

lemma extendFwdF_inv {a b : List Char} {alo ahi blo bhi besti bestj : Nat} :
    ∀ (fuel s : Nat), ahi - (besti + s) < fuel →
      BestInv a b alo ahi blo bhi (besti, bestj, s) →
      BestInv a b alo ahi blo bhi
        (besti, bestj, extendFwdF a b ahi bhi besti bestj fuel s) := by
  intro fuel
  induction fuel with
  | zero => intro s h; omega
  | succ fuel ih =>
    intro s hfuel hbest
    rw [extendFwdF]
    by_cases hg : besti + s < ahi ∧ bestj + s < bhi ∧
        getc a (besti + s) = getc b (bestj + s)
    · simp only [if_pos hg]
      simp only [BestInv] at hbest
      obtain ⟨hb1, hb2, hb3, hb4, hb5⟩ := hbest
      have hbest' : BestInv a b alo ahi blo bhi (besti, bestj, s + 1) := by
        refine ⟨hb1, hb2, fun h0 => absurd h0 (Nat.succ_ne_zero s),
          fun _ => ⟨show besti + (s + 1) ≤ ahi by omega,
            show bestj + (s + 1) ≤ bhi by omega⟩, ?_⟩
        show blockEq a b besti bestj (s + 1)
        intro t ht
        rcases Nat.lt_or_ge t s with hts | hts
        · exact hb5 t hts
        · have hts' : t = s := by omega
          subst hts'; exact hg.2.2
      exact ih (s + 1) (by omega) hbest'
    · simp only [if_neg hg]
      exact hbest

/-- Soundness of `findLongestMatch`: the returned triple is a genuine
common block inside the searched region. -/
lemma findLongestMatch_valid (a b : List Char) (alo ahi blo bhi : Nat) :
    BestInv a b alo ahi blo bhi (findLongestMatch a b alo ahi blo bhi) := by
  unfold findLongestMatch
  have hinit : BestInv a b alo ahi blo bhi (alo, blo, 0) :=
    ⟨le_refl _, le_refl _, fun _ => ⟨rfl, rfl⟩,
      fun h => absurd h (lt_irrefl 0), blockEq_zero a b alo blo⟩
  have hm0 : EntryInv a b alo blo bhi alo (fun _ => 0) := by
    intro j hj; simp at hj
  have hd : BestInv a b alo ahi blo bhi
      (flmLoop a b blo bhi (List.range' alo (ahi - alo)) (fun _ => 0) (alo, blo, 0)) := by
    rcases le_or_lt alo ahi with hle | hlt
    · exact flmLoop_inv (ahi - alo) alo _ _ (le_refl _) (by omega) hm0 hinit
    · have : ahi - alo = 0 := by omega
      rw [this]
      simpa [flmLoop] using hinit
  set d := flmLoop a b blo bhi (List.range' alo (ahi - alo)) (fun _ => 0) (alo, blo, 0)
  have hdeta : d = (d.1, d.2.1, d.2.2) := rfl
  rw [hdeta] at hd
  have he := extendBackF_inv (d.1 + 1) d.1 d.2.1 d.2.2 (by omega) hd
  set e := extendBackF a b alo blo (d.1 + 1) (d.1, d.2.1, d.2.2) with hedef
  have heeta : e = (e.1, e.2.1, e.2.2) := rfl
  rw [heeta] at he
  exact extendFwdF_inv (ahi + 1) e.2.2 (by omega) he

lemma matchingBlocksF_succ (a b : List Char) (fuel alo ahi blo bhi : Nat) :
    matchingBlocksF a b (fuel + 1) alo ahi blo bhi =
      if (findLongestMatch a b alo ahi blo bhi).2.2 = 0 then []
      else
        (if alo < (findLongestMatch a b alo ahi blo bhi).1 ∧
            blo < (findLongestMatch a b alo ahi blo bhi).2.1 then
          matchingBlocksF a b fuel alo (findLongestMatch a b alo ahi blo bhi).1
            blo (findLongestMatch a b alo ahi blo bhi).2.1 else [])
        ++ [findLongestMatch a b alo ahi blo bhi]
        ++ (if (findLongestMatch a b alo ahi blo bhi).1 +
              (findLongestMatch a b alo ahi blo bhi).2.2 < ahi ∧
            (findLongestMatch a b alo ahi blo bhi).2.1 +
              (findLongestMatch a b alo ahi blo bhi).2.2 < bhi then
          matchingBlocksF a b fuel
            ((findLongestMatch a b alo ahi blo bhi).1 +
              (findLongestMatch a b alo ahi blo bhi).2.2) ahi
            ((findLongestMatch a b alo ahi blo bhi).2.1 +
              (findLongestMatch a b alo ahi blo bhi).2.2) bhi else []) := rfl

lemma sumSizes_append (l1 l2 : List (Nat × Nat × Nat)) :
    sumSizes (l1 ++ l2) = sumSizes l1 + sumSizes l2 := by
  simp [sumSizes]

/-- The total size of the matching blocks of a region is at most the
width of the region on either side. -/
lemma matchingBlocksF_sum_le (a b : List Char) :
    ∀ (fuel alo ahi blo bhi : Nat),
      sumSizes (matchingBlocksF a b fuel alo ahi blo bhi) ≤
        min (ahi - alo) (bhi - blo) := by
  intro fuel
  induction fuel with
  | zero => intro alo ahi blo bhi; simp [matchingBlocksF, sumSizes]
  | succ fuel ih =>
    intro alo ahi blo bhi
    have hv := findLongestMatch_valid a b alo ahi blo bhi
    rw [matchingBlocksF_succ]
    rcases hm : findLongestMatch a b alo ahi blo bhi with ⟨i, j, k⟩
    rw [hm] at hv
    simp only [BestInv] at hv
    obtain ⟨hv1, hv2, hv3, hv4, hv5⟩ := hv
    by_cases hk : k = 0
    · simp only [hk, if_pos rfl]
      simp [sumSizes]
    · have hkpos : 0 < k := Nat.pos_of_ne_zero hk
      obtain ⟨hik, hjk⟩ := hv4 hkpos
      simp only [if_neg hk]
      rw [sumSizes_append, sumSizes_append]
      have hmid : sumSizes [(i, j, k)] = k := by simp [sumSizes]
      rw [hmid]
      have hL : sumSizes (if alo < i ∧ blo < j then
          matchingBlocksF a b fuel alo i blo j else []) ≤
          min (i - alo) (j - blo) := by
        split
        · exact ih alo i blo j
        · simp [sumSizes]
      have hR : sumSizes (if i + k < ahi ∧ j + k < bhi then
          matchingBlocksF a b fuel (i + k) ahi (j + k) bhi else []) ≤
          min (ahi - (i + k)) (bhi - (j + k)) := by
        split
        · exact ih (i + k) ahi (j + k) bhi
        · simp [sumSizes]
      omega

/-- If the matching blocks of a region cover it completely on both sides,
the two slices agree pointwise. -/
lemma matchingBlocksF_full (a b : List Char) :
    ∀ (fuel alo ahi blo bhi : Nat), ahi - alo < fuel →
      sumSizes (matchingBlocksF a b fuel alo ahi blo bhi) = ahi - alo →
      sumSizes (matchingBlocksF a b fuel alo ahi blo bhi) = bhi - blo →
      alo ≤ ahi → blo ≤ bhi →
      ∀ t, alo + t < ahi → getc a (alo + t) = getc b (blo + t) := by
  intro fuel
  induction fuel with
  | zero => intro alo ahi blo bhi h; omega
  | succ fuel ih =>
    intro alo ahi blo bhi hfuel hsa hsb hab hbb
    have hv := findLongestMatch_valid a b alo ahi blo bhi
    rw [matchingBlocksF_succ] at hsa hsb
    rcases hm : findLongestMatch a b alo ahi blo bhi with ⟨i, j, k⟩
    rw [hm] at hv hsa hsb
    simp only [BestInv] at hv
    obtain ⟨hv1, hv2, hv3, hv4, hv5⟩ := hv
    by_cases hk : k = 0
    · rw [hk] at hsa
      simp [sumSizes] at hsa
      intro t ht; omega
    · have hkpos : 0 < k := Nat.pos_of_ne_zero hk
      obtain ⟨hik, hjk⟩ := hv4 hkpos
      simp only [if_neg hk] at hsa hsb
      rw [sumSizes_append, sumSizes_append] at hsa hsb
      have hmid : sumSizes [(i, j, k)] = k := by simp [sumSizes]
      rw [hmid] at hsa hsb
      have hLle : sumSizes (if alo < i ∧ blo < j then
          matchingBlocksF a b fuel alo i blo j else []) ≤
          min (i - alo) (j - blo) := by
        split
        · exact matchingBlocksF_sum_le a b fuel alo i blo j
        · simp [sumSizes]
      have hRle : sumSizes (if i + k < ahi ∧ j + k < bhi then
          matchingBlocksF a b fuel (i + k) ahi (j + k) bhi else []) ≤
          min (ahi - (i + k)) (bhi - (j + k)) := by
        split
        · exact matchingBlocksF_sum_le a b fuel (i + k) ahi (j + k) bhi
        · simp [sumSizes]
      -- full coverage forces each part to cover its own region exactly
      have heqL1 : sumSizes (if alo < i ∧ blo < j then
          matchingBlocksF a b fuel alo i blo j else []) = i - alo := by omega
      have heqL2 : sumSizes (if alo < i ∧ blo < j then
          matchingBlocksF a b fuel alo i blo j else []) = j - blo := by omega
      have heqR1 : sumSizes (if i + k < ahi ∧ j + k < bhi then
          matchingBlocksF a b fuel (i + k) ahi (j + k) bhi else []) = ahi - (i + k) := by
        omega
      have heqR2 : sumSizes (if i + k < ahi ∧ j + k < bhi then
          matchingBlocksF a b fuel (i + k) ahi (j + k) bhi else []) = bhi - (j + k) := by
        omega
      have hoffs : i - alo = j - blo := by omega
      have hL : ∀ t, alo + t < i → getc a (alo + t) = getc b (blo + t) := by
        by_cases hg : alo < i ∧ blo < j
        · rw [if_pos hg] at heqL1 heqL2
          exact ih alo i blo j (by omega) heqL1 heqL2 (by omega) (by omega)
        · intro t ht
          exfalso
          rw [if_neg hg] at heqL1 heqL2
          simp only [sumSizes, List.map_nil, List.sum_nil] at heqL1 heqL2
          omega
      have hR : ∀ t, i + k + t < ahi →
          getc a (i + k + t) = getc b (j + k + t) := by
        by_cases hg : i + k < ahi ∧ j + k < bhi
        · rw [if_pos hg] at heqR1 heqR2
          exact ih (i + k) ahi (j + k) bhi (by omega) heqR1 heqR2 (by omega) (by omega)
        · intro t ht
          exfalso
          rw [if_neg hg] at heqR1 heqR2
          simp only [sumSizes, List.map_nil, List.sum_nil] at heqR1 heqR2
          omega
      intro t ht
      rcases Nat.lt_or_ge (alo + t) i with hcase | hcase
      · exact hL t hcase
      · rcases Nat.lt_or_ge (alo + t) (i + k) with hcase2 | hcase2
        · have hb := hv5 (alo + t - i) (by omega)
          have e1 : i + (alo + t - i) = alo + t := by omega
          have e2 : j + (alo + t - i) = blo + t := by omega
          rw [e1, e2] at hb
          exact hb
        · have := hR (alo + t - (i + k)) (by omega)
          have e1 : i + k + (alo + t - (i + k)) = alo + t := by omega
          have e2 : j + k + (alo + t - (i + k)) = blo + t := by omega
          rw [e1, e2] at this
          exact this

lemma matchedCount_le (a b : List Char) :
    matchedCount a b ≤ min a.length b.length := by
  have := matchingBlocksF_sum_le a b (a.length + 1) 0 a.length 0 b.length
  simpa [matchedCount, matchingBlocks] using this

lemma ratioQ_nonneg (a b : List Char) : 0 ≤ ratioQ a b := by
  unfold ratioQ
  split
  · norm_num
  · positivity

lemma ratioQ_le_one (a b : List Char) : ratioQ a b ≤ 1 := by
  unfold ratioQ
  split
  · exact le_refl 1
  · rename_i hT
    rw [div_le_one (show (0:ℚ) < (a.length : ℚ) + b.length by
      have : 0 < a.length + b.length := Nat.pos_of_ne_zero hT
      exact_mod_cast this)]
    have h := matchedCount_le a b
    have : 2 * matchedCount a b ≤ a.length + b.length := by omega
    exact_mod_cast this

/-- A ratio of exactly 1 forces the two sequences to be equal. -/
lemma ratioQ_eq_one {a b : List Char} (h : ratioQ a b = 1) : a = b := by
  unfold ratioQ at h
  split at h
  · rename_i hT
    have ha : a = [] := List.eq_nil_of_length_eq_zero (by omega)
    have hb : b = [] := List.eq_nil_of_length_eq_zero (by omega)
    rw [ha, hb]
  · rename_i hT
    rw [div_eq_one_iff_eq (show ((a.length : ℚ) + b.length) ≠ 0 by
      exact_mod_cast hT)] at h
    have h2 : 2 * matchedCount a b = a.length + b.length := by exact_mod_cast h
    have hle := matchedCount_le a b
    have hMa : matchedCount a b = a.length := by omega
    have hMb : matchedCount a b = b.length := by omega
    have hfull := matchingBlocksF_full a b (a.length + 1) 0 a.length 0 b.length
      (by omega)
      (by simpa [matchedCount, matchingBlocks] using hMa)
      (by simpa [matchedCount, matchingBlocks] using hMb)
      (Nat.zero_le _) (Nat.zero_le _)
    have hlen : a.length = b.length := by omega
    apply List.ext_getElem hlen
    intro n h1 h2
    have := hfull n (by omega)
    simp only [Nat.zero_add] at this
    unfold getc at this
    rwa [List.getD_eq_getElem a ' ' h1, List.getD_eq_getElem b ' ' h2] at this

/-! ### `ratio` of a sequence with itself

When `a = b = w` the dynamic program only ever records diagonal blocks
(`besti = bestj`).  Indeed the chain lengths `j2len[j]` are bounded by the
maximal junk-free run ending at `j` on the `b` side and at the current row
on the `a` side — and these are the same runs since the sequences are
equal — so the first chain attaining each new record length is the
diagonal one.  A diagonal best block then extends backwards and forwards
to the whole sequence, giving a single block `(0, 0, n)` and ratio 1. -/

/-- Length of the maximal non-popular run of `w` ending at index `j`. -/
def runLen (w : List Char) : Nat → Nat
  | 0 => if isPop w (getc w 0) then 0 else 1
  | j + 1 => if isPop w (getc w (j + 1)) then 0 else runLen w j + 1

/-- Maximum of `runLen` over indices `< i`. -/
def maxRun (w : List Char) : Nat → Nat
  | 0 => 0
  | i + 1 => max (maxRun w i) (runLen w i)

lemma runLen_le_maxRun {w : List Char} {t i : Nat} (h : t < i) :
    runLen w t ≤ maxRun w i := by
  induction i with
  | zero => omega
  | succ i ih =>
    rcases Nat.lt_or_ge t i with h' | h'
    · exact le_trans (ih h') (le_max_left _ _)
    · have : t = i := by omega
      subst this
      exact le_max_right _ _

lemma runLen_nonpop {w : List Char} {j : Nat} (h : ¬ isPop w (getc w j)) :
    runLen w j = (if j = 0 then 0 else runLen w (j - 1)) + 1 := by
  cases j with
  | zero => simp [runLen, h]
  | succ j => simp [runLen, h]

lemma runLen_pop {w : List Char} {j : Nat} (h : isPop w (getc w j)) :
    runLen w j = 0 := by
  cases j with
  | zero => simp [runLen, h]
  | succ j => simp [runLen, h]

lemma b2j_self_mem {w : List Char} {c : Char} {j : Nat} :
    j ∈ b2j w c ↔ ¬ isPop w c ∧ j < w.length ∧ getc w j = c := by
  unfold b2j
  split
  · rename_i h; simp [h]
  · rename_i h
    simp only [List.mem_filter, List.mem_range, decide_eq_true_eq]
    tauto

lemma b2j_pairwise (b : List Char) (c : Char) : (b2j b c).Pairwise (· < ·) := by
  unfold b2j
  split
  · exact List.Pairwise.nil
  · exact (List.pairwise_lt_range b.length).filter _

/-- One full row of the dynamic program, in the self case: the best block
stays diagonal, reaches at least every run seen so far, and the new map
records exactly the runs ending at row `i`. -/
lemma selfInnerLoop {w : List Char} {i : Nat} {old : Nat → Nat}
    (hi : i < w.length)
    (hnonpop : ¬ isPop w (getc w i))
    (hold1 : ∀ j, old j ≤ runLen w j)
    (hold2 : ∀ j, old j ≤ (if i = 0 then 0 else runLen w (i - 1)))
    (hold3 : 0 < i → old (i - 1) = runLen w (i - 1)) :
    ∀ (P : List Nat) (new : Nat → Nat) (best : Nat × Nat × Nat),
      P.Pairwise (· < ·) →
      (∀ j ∈ P, j < w.length ∧ getc w j = getc w i) →
      best.1 = best.2.1 →
      maxRun w i ≤ best.2.2 →
      (i ∈ P ∨ runLen w i ≤ best.2.2) →
      (∀ j, new j ≤ runLen w j) →
      (∀ j, new j ≤ runLen w i) →
      (i ∈ P ∨ new i = runLen w i) →
      (∀ j, (innerLoop i 0 w.length old P new best).1 j ≤ runLen w j) ∧
      (∀ j, (innerLoop i 0 w.length old P new best).1 j ≤ runLen w i) ∧
      (innerLoop i 0 w.length old P new best).1 i = runLen w i ∧
      (innerLoop i 0 w.length old P new best).2.1 =
        (innerLoop i 0 w.length old P new best).2.2.1 ∧
      maxRun w i ≤ (innerLoop i 0 w.length old P new best).2.2.2 ∧
      runLen w i ≤ (innerLoop i 0 w.length old P new best).2.2.2 := by
  intro P
  induction P with
  | nil =>
    intro new best _ _ hdiag hmax hdisj hn1 hn2 hdiagE
    simp only [innerLoop]
    rcases hdisj with h | h
    · simp at h
    rcases hdiagE with h' | h'
    · simp at h'
    exact ⟨hn1, hn2, h', hdiag, hmax, h⟩
  | cons j rest ih =>
    intro new best hpw hmem hdiag hmax hdisj hn1 hn2 hdiagE
    have hmemj := hmem j (List.mem_cons_self j rest)
    have hmemrest : ∀ x ∈ rest, x < w.length ∧ getc w x = getc w i :=
      fun x hx => hmem x (List.mem_cons_of_mem j hx)
    have hpwrest : rest.Pairwise (· < ·) := hpw.of_cons
    have hjlt : ∀ x ∈ rest, j < x := fun x hx => (List.pairwise_cons.mp hpw).1 x hx
    have h1 : ¬ j < 0 := by omega
    have h2 : ¬ w.length ≤ j := by omega
    rw [innerLoop_cons_proc h1 h2]
    -- the chain value written at j
    generalize hv : (if j = 0 then 0 else old (j - 1)) = v
    have hjofs : ¬ isPop w (getc w j) := by rw [hmemj.2]; exact hnonpop
    have hrunj : runLen w j = (if j = 0 then 0 else runLen w (j - 1)) + 1 :=
      runLen_nonpop hjofs
    have hruni_pos : 1 ≤ runLen w i := by
      rw [runLen_nonpop hnonpop]; omega
    have hkj : v + 1 ≤ runLen w j := by
      rcases Nat.eq_zero_or_pos j with hj0 | hjpos
      · subst hj0
        simp at hv hrunj
        omega
      · have hj0 : j ≠ 0 := by omega
        rw [if_neg hj0] at hv
        rw [if_neg hj0] at hrunj
        have := hold1 (j - 1)
        omega
    have hki : v + 1 ≤ runLen w i := by
      rcases Nat.eq_zero_or_pos j with hj0 | hjpos
      · subst hj0
        simp at hv
        omega
      · have hj0 : j ≠ 0 := by omega
        rw [if_neg hj0] at hv
        have := hold2 (j - 1)
        rcases Nat.eq_zero_or_pos i with hi0 | hipos
        · subst hi0
          simp at this
          omega
        · have hi0 : i ≠ 0 := by omega
          rw [if_neg hi0] at this
          rw [runLen_nonpop hnonpop, if_neg hi0]
          omega
    by_cases hji : j = i
    · -- the diagonal element: the written value is exactly `runLen w i`
      subst hji
      have hkexact : v + 1 = runLen w j := by
        rcases Nat.eq_zero_or_pos j with hj0 | hjpos
        · subst hj0
          simp at hv hrunj
          omega
        · have hj0 : j ≠ 0 := by omega
          rw [if_neg hj0] at hv
          rw [if_neg hj0] at hrunj
          have := hold3 hjpos
          omega
      have hirest : j ∉ rest := fun hc => absurd (hjlt j hc) (lt_irrefl j)
      have hnew1 : ∀ j', (fun j' => if j' = j then v + 1 else new j') j' ≤ runLen w j' := by
        intro j'
        by_cases hq : j' = j
        · subst hq; simp [hkexact]
        · simp only [if_neg hq]; exact hn1 j'
      have hnew2 : ∀ j', (fun j' => if j' = j then v + 1 else new j') j' ≤ runLen w j := by
        intro j'
        by_cases hq : j' = j
        · subst hq; simp [hkexact]
        · simp only [if_neg hq]; exact hn2 j'
      have hnewd : j ∈ rest ∨ (fun j' => if j' = j then v + 1 else new j') j = runLen w j := by
        right; simp [hkexact]
      by_cases hupd : best.2.2 < v + 1
      · rw [if_pos hupd]
        exact ih _ _ hpwrest hmemrest rfl
          (show maxRun w j ≤ v + 1 by omega)
          (Or.inr (show runLen w j ≤ v + 1 by omega)) hnew1 hnew2 hnewd
      · rw [if_neg hupd]
        exact ih _ _ hpwrest hmemrest hdiag hmax (Or.inr (by omega)) hnew1 hnew2 hnewd
    · -- off-diagonal element: never a new record
      have hnoupd : ¬ best.2.2 < v + 1 := by
        rcases hdisj with hinP | hbound
        · -- the diagonal index is still ahead, so j < i
          have hiin : i ∈ rest := by
            rcases List.mem_cons.mp hinP with h | h
            · exact absurd h.symm hji
            · exact h
          have hjlti : j < i := hjlt i hiin
          have : runLen w j ≤ maxRun w i := runLen_le_maxRun hjlti
          omega
        · omega
      rw [if_neg hnoupd]
      have hnew1 : ∀ j', (fun j' => if j' = j then v + 1 else new j') j' ≤ runLen w j' := by
        intro j'
        by_cases hq : j' = j
        · subst hq; simp only [if_pos rfl]; exact hkj
        · simp only [if_neg hq]; exact hn1 j'
      have hnew2 : ∀ j', (fun j' => if j' = j then v + 1 else new j') j' ≤ runLen w i := by
        intro j'
        by_cases hq : j' = j
        · subst hq; simp only [if_pos rfl]; exact hki
        · simp only [if_neg hq]; exact hn2 j'
      have hdisj' : i ∈ rest ∨ runLen w i ≤ best.2.2 := by
        rcases hdisj with hinP | hbound
        · rcases List.mem_cons.mp hinP with h | h
          · exact absurd h.symm hji
          · exact Or.inl h
        · exact Or.inr hbound
      have hnewd : i ∈ rest ∨ (fun j' => if j' = j then v + 1 else new j') i = runLen w i := by
        rcases hdiagE with hinP | hval
        · rcases List.mem_cons.mp hinP with h | h
          · exact absurd h.symm hji
          · exact Or.inl h
        · right
          have : i ≠ j := fun hc => hji hc.symm
          simp only [if_neg this]
          exact hval
      exact ih _ _ hpwrest hmemrest hdiag hmax hdisj' hnew1 hnew2 hnewd

/-- The whole dynamic program, in the self case: the best block is
diagonal. -/
lemma selfFlmLoop {w : List Char} :
    ∀ (rounds i0 : Nat) (m : Nat → Nat) (best : Nat × Nat × Nat),
      i0 + rounds ≤ w.length →
      (∀ j, m j ≤ runLen w j) →
      (∀ j, m j ≤ (if i0 = 0 then 0 else runLen w (i0 - 1))) →
      (0 < i0 → m (i0 - 1) = runLen w (i0 - 1)) →
      best.1 = best.2.1 →
      maxRun w i0 ≤ best.2.2 →
      (flmLoop w w 0 w.length (List.range' i0 rounds) m best).1 =
        (flmLoop w w 0 w.length (List.range' i0 rounds) m best).2.1 := by
  intro rounds
  induction rounds with
  | zero => intro i0 m best _ _ _ _ hdiag _; simpa [flmLoop] using hdiag
  | succ rounds ih =>
    intro i0 m best hle hm1 hm2 hm3 hdiag hmax
    rw [List.range'_succ, flmLoop]
    have hi0 : i0 < w.length := by omega
    by_cases hpop : isPop w (getc w i0)
    · -- popular row: `b2j` is empty, nothing changes but the map resets
      have hb : b2j w (getc w i0) = [] := by unfold b2j; rw [if_pos hpop]
      rw [hb]
      simp only [innerLoop]
      have hrun0 : runLen w i0 = 0 := runLen_pop hpop
      apply ih (i0 + 1) _ _ (by omega)
        (fun j => Nat.zero_le _)
        (by intro j; simp [hrun0])
        (by intro _; simp [hrun0])
        hdiag
      show maxRun w (i0 + 1) ≤ best.2.2
      unfold maxRun
      rw [hrun0]
      omega
    · -- non-popular row: the diagonal index is in the occurrence list
      have hiin : i0 ∈ b2j w (getc w i0) :=
        b2j_self_mem.mpr ⟨hpop, hi0, rfl⟩
      have hmem : ∀ j ∈ b2j w (getc w i0), j < w.length ∧ getc w j = getc w i0 := by
        intro j hj
        have := b2j_self_mem.mp hj
        exact ⟨this.2.1, this.2.2⟩
      have hres := selfInnerLoop hi0 hpop hm1 hm2 hm3 (b2j w (getc w i0))
        (fun _ => 0) best (b2j_pairwise w (getc w i0)) hmem hdiag hmax
        (Or.inl hiin) (fun j => Nat.zero_le _) (fun j => Nat.zero_le _)
        (Or.inl hiin)
      obtain ⟨hr1, hr2, hr3, hr4, hr5, hr6⟩ := hres
      apply ih (i0 + 1) _ _ (by omega) hr1
        (by intro j; simpa using hr2 j)
        (by intro _; simpa using hr3)
        hr4
      show maxRun w (i0 + 1) ≤ _
      unfold maxRun
      omega

lemma extendBackF_self (w : List Char) :
    ∀ (fuel d s : Nat), d < fuel →
      extendBackF w w 0 0 fuel (d, d, s) = (0, 0, s + d) := by
  intro fuel
  induction fuel with
  | zero => intro d s h; omega
  | succ fuel ih =>
    intro d s h
    rw [extendBackF]
    rcases Nat.eq_zero_or_pos d with hd0 | hdpos
    · subst hd0
      simp
    · have hg : 0 < d ∧ 0 < d ∧ getc w (d - 1) = getc w (d - 1) :=
        ⟨hdpos, hdpos, rfl⟩
      rw [if_pos hg]
      rw [ih (d - 1) (s + 1) (by omega)]
      congr 2
      omega

lemma extendFwdF_self (w : List Char) :
    ∀ (fuel s : Nat), w.length - s < fuel → s ≤ w.length →
      extendFwdF w w w.length w.length 0 0 fuel s = w.length := by
  intro fuel
  induction fuel with
  | zero => intro s h; omega
  | succ fuel ih =>
    intro s hfuel hs
    rw [extendFwdF]
    rcases Nat.lt_or_ge s w.length with hlt | hge
    · have hg : 0 + s < w.length ∧ 0 + s < w.length ∧
          getc w (0 + s) = getc w (0 + s) := ⟨by omega, by omega, rfl⟩
      rw [if_pos hg]
      exact ih (s + 1) (by omega) (by omega)
    · have hg : ¬ (0 + s < w.length ∧ 0 + s < w.length ∧
          getc w (0 + s) = getc w (0 + s)) := by
        intro hc; omega
      rw [if_neg hg]
      omega

lemma extendBackF_self_gen (w : List Char) (fuel : Nat) (t : Nat × Nat × Nat)
    (hdg : t.2.1 = t.1) (hf : t.1 < fuel) :
    extendBackF w w 0 0 fuel t = (0, 0, t.2.2 + t.1) := by
  obtain ⟨a1, a2, a3⟩ := t
  simp only at hdg hf
  subst hdg
  exact extendBackF_self w fuel a2 a3 hf

/-- In the self case `find_longest_match` returns the whole sequence. -/
lemma findLongestMatch_self (w : List Char) :
    findLongestMatch w w 0 w.length 0 w.length = (0, 0, w.length) := by
  set d := flmLoop w w 0 w.length (List.range' 0 (w.length - 0)) (fun _ => 0) (0, 0, 0)
    with hd
  have hdiag := selfFlmLoop (w := w) (w.length - 0) 0 (fun _ => 0) (0, 0, 0)
    (by omega) (fun j => Nat.zero_le _) (by intro j; simp) (by omega) rfl
    (by simp [maxRun])
  rw [← hd] at hdiag
  have hm0 : EntryInv w w 0 0 w.length 0 (fun _ => 0) := by
    intro j hj; simp at hj
  have hinit : BestInv w w 0 w.length 0 w.length (0, 0, 0) :=
    ⟨le_refl _, le_refl _, fun _ => ⟨rfl, rfl⟩,
      fun h => absurd h (lt_irrefl 0), blockEq_zero w w 0 0⟩
  have hdBI : BestInv w w 0 w.length 0 w.length d := by
    rw [hd]
    exact flmLoop_inv (w.length - 0) 0 _ _ (le_refl 0) (by omega) hm0 hinit
  have hbound : d.2.2 + d.1 ≤ w.length := by
    obtain ⟨hb1, hb2, hb3, hb4, hb5⟩ := hdBI
    rcases Nat.eq_zero_or_pos d.2.2 with h0 | hpos
    · have := hb3 h0; omega
    · have := hb4 hpos; omega
  have h1 : extendBackF w w 0 0 (d.1 + 1) d = (0, 0, d.2.2 + d.1) :=
    extendBackF_self_gen w (d.1 + 1) d hdiag.symm (by omega)
  have hstep : findLongestMatch w w 0 w.length 0 w.length =
      ((extendBackF w w 0 0 (d.1 + 1) d).1,
       (extendBackF w w 0 0 (d.1 + 1) d).2.1,
       extendFwdF w w w.length w.length
         (extendBackF w w 0 0 (d.1 + 1) d).1
         (extendBackF w w 0 0 (d.1 + 1) d).2.1
         (w.length + 1)
         (extendBackF w w 0 0 (d.1 + 1) d).2.2) := rfl
  rw [hstep, h1]
  simp only
  rw [extendFwdF_self w (w.length + 1) (d.2.2 + d.1) (by omega) hbound]

/-- `ratio(w, w) = 1` for every sequence `w` (the empty case is the
`T == 0` branch of `_calculate_ratio`). -/
lemma ratioQ_self (w : List Char) : ratioQ w w = 1 := by
  unfold ratioQ
  split
  · rfl
  · rename_i hT
    have hn : 0 < w.length := by omega
    have hblocks : matchingBlocks w w = [(0, 0, w.length)] := by
      unfold matchingBlocks
      rw [matchingBlocksF_succ, findLongestMatch_self]
      simp only
      rw [if_neg (by omega : ¬ w.length = 0)]
      rw [if_neg (by omega : ¬ (0 < 0 ∧ 0 < 0))]
      rw [if_neg (by omega : ¬ (0 + w.length < w.length ∧ 0 + w.length < w.length))]
      simp
    have hM : matchedCount w w = w.length := by
      rw [matchedCount, hblocks]
      simp [sumSizes]
    rw [hM]
    rw [div_eq_one_iff_eq (by
      have : (0:ℚ) < (w.length : ℚ) + w.length := by
        have : 0 < w.length + w.length := by omega
        exact_mod_cast this
      exact ne_of_gt this)]
    ring_nf

/-! ### Properties of `similarity_score` -/

lemma similarity_score_nonneg (s1 s2 : String) : 0 ≤ similarity_score s1 s2 := by
  unfold similarity_score
  split
  · exact le_refl 0
  · exact ratioQ_nonneg _ _

lemma similarity_score_le_one (s1 s2 : String) : similarity_score s1 s2 ≤ 1 := by
  unfold similarity_score
  split
  · norm_num
  · exact ratioQ_le_one _ _

lemma similarity_score_self {s : String} (h : s ≠ "") :
    similarity_score s s = 1 := by
  unfold similarity_score
  rw [if_neg (by tauto)]
  exact ratioQ_self _

/-- A similarity of exactly 1 forces the uppercased strings to be equal. -/
lemma similarity_score_eq_one {s1 s2 : String} (h : similarity_score s1 s2 = 1) :
    pyUpper s1 = pyUpper s2 := by
  unfold similarity_score at h
  split at h
  · norm_num at h
  · have := ratioQ_eq_one h
    unfold pyUpper
    rw [this]

/-! ## Properties of the fuzzy-match loop -/

lemma fuzzyStep_eq (nm : String) (th : ℚ) (acc : Option CarMaster × ℚ)
    (c : CarMaster) :
    fuzzyStep nm th acc c =
      if acc.2 < similarity_score nm c.model ∧ th ≤ similarity_score nm c.model
      then (some c, similarity_score nm c.model) else acc := rfl

lemma fuzzyStep_snd_mono (nm : String) (th : ℚ) (acc : Option CarMaster × ℚ)
    (c : CarMaster) : acc.2 ≤ (fuzzyStep nm th acc c).2 := by
  rw [fuzzyStep_eq]
  split
  · rename_i h; exact le_of_lt h.1
  · exact le_refl _

lemma fuzzyFold_snd_mono (nm : String) (th : ℚ) :
    ∀ (l : List CarMaster) (acc : Option CarMaster × ℚ),
      acc.2 ≤ (l.foldl (fuzzyStep nm th) acc).2 := by
  intro l
  induction l with
  | nil => intro acc; exact le_refl _
  | cons x rest ih =>
    intro acc
    rw [List.foldl_cons]
    exact le_trans (fuzzyStep_snd_mono nm th acc x) (ih _)

lemma fuzzyFold_none (nm : String) (th : ℚ) :
    ∀ (l : List CarMaster) (acc : Option CarMaster × ℚ),
      (l.foldl (fuzzyStep nm th) acc).1 = none →
      l.foldl (fuzzyStep nm th) acc = acc ∧
      ∀ x ∈ l, ¬ (acc.2 < similarity_score nm x.model ∧
        th ≤ similarity_score nm x.model) := by
  intro l
  induction l with
  | nil => intro acc _; exact ⟨rfl, by simp⟩
  | cons x rest ih =>
    intro acc hn
    rw [List.foldl_cons] at hn ⊢
    by_cases hupd : acc.2 < similarity_score nm x.model ∧
        th ≤ similarity_score nm x.model
    · exfalso
      have hstep : fuzzyStep nm th acc x = (some x, similarity_score nm x.model) := by
        rw [fuzzyStep_eq, if_pos hupd]
      rw [hstep] at hn
      -- a `some` accumulator can never become `none` again
      have hkeep : ∀ (l' : List CarMaster) (a : Option CarMaster × ℚ) (c : CarMaster),
          a.1 = some c → ∃ c', (l'.foldl (fuzzyStep nm th) a).1 = some c' := by
        intro l'
        induction l' with
        | nil => intro a c ha; exact ⟨c, ha⟩
        | cons y rest' ih' =>
          intro a c ha
          rw [List.foldl_cons, fuzzyStep_eq]
          split
          · exact ih' _ y rfl
          · exact ih' _ c ha
      obtain ⟨c', hc'⟩ := hkeep rest (some x, similarity_score nm x.model) x rfl
      rw [hn] at hc'
      exact Option.noConfusion hc'
    · have hstep : fuzzyStep nm th acc x = acc := by
        rw [fuzzyStep_eq, if_neg hupd]
      rw [hstep] at hn ⊢
      obtain ⟨h1, h2⟩ := ih acc hn
      refine ⟨h1, ?_⟩
      intro y hy
      rcases List.mem_cons.mp hy with h | h
      · subst h; exact hupd
      · exact h2 y h

lemma fuzzyFold_some (nm : String) (th : ℚ) :
    ∀ (l : List CarMaster) (acc : Option CarMaster × ℚ) (c : CarMaster) (s : ℚ),
      l.foldl (fuzzyStep nm th) acc = (some c, s) →
      acc = (some c, s) ∨
      (c ∈ l ∧ s = similarity_score nm c.model ∧ th ≤ s ∧ acc.2 < s) := by
  intro l
  induction l with
  | nil => intro acc c s h; exact Or.inl h
  | cons x rest ih =>
    intro acc c s h
    rw [List.foldl_cons] at h
    by_cases hupd : acc.2 < similarity_score nm x.model ∧
        th ≤ similarity_score nm x.model
    · have hstep : fuzzyStep nm th acc x = (some x, similarity_score nm x.model) := by
        rw [fuzzyStep_eq, if_pos hupd]
      rw [hstep] at h
      rcases ih _ c s h with heq | ⟨hmem, hs, hth, hlt⟩
      · have hcx : c = x := by
          have := congrArg Prod.fst heq
          simpa using this.symm
        have hsx : s = similarity_score nm x.model := by
          have := congrArg Prod.snd heq
          simpa using this.symm
        subst hcx
        exact Or.inr ⟨List.mem_cons_self c rest, by rw [hsx], by rw [hsx]; exact hupd.2,
          by rw [hsx]; exact hupd.1⟩
      · exact Or.inr ⟨List.mem_cons_of_mem x hmem, hs, hth,
          lt_of_le_of_lt (le_of_lt hupd.1) hlt⟩
    · have hstep : fuzzyStep nm th acc x = acc := by
        rw [fuzzyStep_eq, if_neg hupd]
      rw [hstep] at h
      rcases ih _ c s h with heq | ⟨hmem, hs, hth, hlt⟩
      · exact Or.inl heq
      · exact Or.inr ⟨List.mem_cons_of_mem x hmem, hs, hth, hlt⟩

/-- If the fuzzy loop gains nothing, no element satisfied its update
condition. -/
lemma fuzzyFold_no_gain (nm : String) (th : ℚ) :
    ∀ (l : List CarMaster) (acc : Option CarMaster × ℚ),
      (l.foldl (fuzzyStep nm th) acc).2 = acc.2 →
      ∀ x ∈ l, ¬ (acc.2 < similarity_score nm x.model ∧
        th ≤ similarity_score nm x.model) := by
  intro l
  induction l with
  | nil => intro acc _; simp
  | cons x rest ih =>
    intro acc hfix y hy
    rw [List.foldl_cons] at hfix
    by_cases hupd : acc.2 < similarity_score nm x.model ∧
        th ≤ similarity_score nm x.model
    · exfalso
      have hstep : fuzzyStep nm th acc x = (some x, similarity_score nm x.model) := by
        rw [fuzzyStep_eq, if_pos hupd]
      rw [hstep] at hfix
      have := fuzzyFold_snd_mono nm th rest (some x, similarity_score nm x.model)
      rw [hfix] at this
      exact absurd (lt_of_lt_of_le hupd.1 this) (lt_irrefl _)
    · have hstep : fuzzyStep nm th acc x = acc := by
        rw [fuzzyStep_eq, if_neg hupd]
      rw [hstep] at hfix
      rcases List.mem_cons.mp hy with h | h
      · subst h; exact hupd
      · exact ih acc hfix y h

/-- When the fuzzy loop succeeds with final score `s`, every candidate
scores at most `s` and the winner is the first list element attaining
`s`. -/
lemma fuzzyFold_first_max (nm : String) (th : ℚ) :
    ∀ (l : List CarMaster) (acc : Option CarMaster × ℚ) (c : CarMaster) (s : ℚ),
      acc.2 < s → th ≤ s →
      l.foldl (fuzzyStep nm th) acc = (some c, s) →
      (∀ x ∈ l, similarity_score nm x.model ≤ s) ∧
      l.find? (fun x => similarity_score nm x.model == s) = some c := by
  intro l
  induction l with
  | nil =>
    intro acc c s hlt _ h
    exfalso
    rw [List.foldl_nil] at h
    rw [h] at hlt
    exact absurd hlt (lt_irrefl s)
  | cons x rest ih =>
    intro acc c s hlt hth h
    rw [List.foldl_cons] at h
    by_cases hupd : acc.2 < similarity_score nm x.model ∧
        th ≤ similarity_score nm x.model
    · have hstep : fuzzyStep nm th acc x = (some x, similarity_score nm x.model) := by
        rw [fuzzyStep_eq, if_pos hupd]
      rw [hstep] at h
      have hxle : similarity_score nm x.model ≤ s := by
        have := fuzzyFold_snd_mono nm th rest (some x, similarity_score nm x.model)
        rw [h] at this
        exact this
      rcases eq_or_lt_of_le hxle with hxeq | hxlt
      · -- the head already attains the final score, and stays the winner
        have hcx : c = x := by
          rcases fuzzyFold_some nm th rest (some x, similarity_score nm x.model) c s h
            with heq | ⟨_, _, _, hbad⟩
          · have := congrArg Prod.fst heq
            simpa using this.symm
          · rw [hxeq] at hbad
            exact absurd hbad (lt_irrefl s)
        have hrest : ∀ y ∈ rest, similarity_score nm y.model ≤ s := by
          have hfix : (rest.foldl (fuzzyStep nm th)
              (some x, similarity_score nm x.model)).2
              = (some x, similarity_score nm x.model).2 := by
            rw [h, hxeq]
          intro y hy
          have := fuzzyFold_no_gain nm th rest _ hfix y hy
          push_neg at this
          rcases le_or_lt (similarity_score nm y.model)
              (some x, similarity_score nm x.model).2 with h' | h'
          · exact le_trans h' hxle
          · exact le_trans (le_of_lt (lt_of_lt_of_le (this h') hth)) (le_refl s)
        constructor
        · intro y hy
          rcases List.mem_cons.mp hy with hh | hh
          · subst hh; exact hxle
          · exact hrest y hh
        · rw [List.find?_cons]
          have : (similarity_score nm x.model == s) = true := by
            rw [hxeq]; exact beq_self_eq_true s
          rw [this, hcx]
      · -- the head scores strictly below the final score
        have hres := ih (some x, similarity_score nm x.model) c s hxlt hth h
        constructor
        · intro y hy
          rcases List.mem_cons.mp hy with hh | hh
          · subst hh; exact hxle
          · exact hres.1 y hh
        · rw [List.find?_cons]
          have : (similarity_score nm x.model == s) = false := by
            rw [beq_eq_false_iff_ne]
            exact ne_of_lt hxlt
          rw [this]
          exact hres.2
    · have hstep : fuzzyStep nm th acc x = acc := by
        rw [fuzzyStep_eq, if_neg hupd]
      rw [hstep] at h
      have hxne : similarity_score nm x.model ≠ s := by
        intro hc
        rw [hc] at hupd
        exact hupd ⟨hlt, hth⟩
      have hxle : similarity_score nm x.model ≤ s := by
        push_neg at hupd
        rcases le_or_lt (similarity_score nm x.model) acc.2 with h' | h'
        · exact le_trans h' (le_of_lt hlt)
        · exact le_trans (le_of_lt (lt_of_lt_of_le (hupd h') hth)) (le_refl s)
      have hres := ih acc c s hlt hth h
      constructor
      · intro y hy
        rcases List.mem_cons.mp hy with hh | hh
        · subst hh; exact hxle
        · exact hres.1 y hh
      · rw [List.find?_cons]
        have : (similarity_score nm x.model == s) = false := by
          rw [beq_eq_false_iff_ne]
          exact hxne
        rw [this]
        exact hres.2

/-! ## Resolver theorems -/

lemma find_master_car_eq (candidates : List CarMaster) (make model : String)
    (year : Int) (threshold : ℚ) :
    find_master_car candidates make model year threshold =
      match candidates.find?
          (exactPred (normalize_make make) (normalize_model model) year) with
      | some c => (Tier.EXACT, some (c.id, 1))
      | none =>
        match ((candidates.filter (makeYearPred (normalize_make make) year)).foldl
            (fuzzyStep (normalize_model model) threshold)
            ((none : Option CarMaster), (0 : ℚ))).1 with
        | some c => (Tier.FUZZY, some (c.id,
            ((candidates.filter (makeYearPred (normalize_make make) year)).foldl
              (fuzzyStep (normalize_model model) threshold)
              ((none : Option CarMaster), (0 : ℚ))).2))
        | none =>
          match (candidates.filter (makeYearPred (normalize_make make) year)).head? with
          | some c => (Tier.FALLBACK, some (c.id, 3 / 10))
          | none => (Tier.NONE, none) := rfl

/-- Unpacking of a fuzzy-loop success starting from the empty
accumulator. -/
lemma fuzzy_success (nm : String) (th : ℚ) (l : List CarMaster) (c : CarMaster)
    (h : (l.foldl (fuzzyStep nm th) ((none : Option CarMaster), (0 : ℚ))).1 = some c) :
    c ∈ l ∧
    (l.foldl (fuzzyStep nm th) ((none : Option CarMaster), (0 : ℚ))).2 =
      similarity_score nm c.model ∧
    th ≤ (l.foldl (fuzzyStep nm th) ((none : Option CarMaster), (0 : ℚ))).2 ∧
    0 < (l.foldl (fuzzyStep nm th) ((none : Option CarMaster), (0 : ℚ))).2 := by
  have heta : l.foldl (fuzzyStep nm th) ((none : Option CarMaster), (0 : ℚ)) =
      ((l.foldl (fuzzyStep nm th) ((none : Option CarMaster), (0 : ℚ))).1,
       (l.foldl (fuzzyStep nm th) ((none : Option CarMaster), (0 : ℚ))).2) := rfl
  rw [h] at heta
  rcases fuzzyFold_some nm th l ((none : Option CarMaster), (0 : ℚ)) c _ heta
    with hbad | ⟨hmem, hs, hth, hlt⟩
  · exact absurd (congrArg Prod.fst hbad) (by simp)
  · exact ⟨hmem, hs, hth, hlt⟩

/-- C3: every resolver call returns one of the four tiers, with
confidence exactly 1.0 for EXACT, in `[threshold, 1)` for FUZZY,
exactly 0.3 for FALLBACK, and a null result for NONE. -/
theorem C3_resolution_tiers (candidates : List CarMaster) (make model : String)
    (year : Int) (threshold : ℚ) :
    ((find_master_car candidates make model year threshold).1 = Tier.EXACT →
      ∃ id, (find_master_car candidates make model year threshold).2 = some (id, 1)) ∧
    ((find_master_car candidates make model year threshold).1 = Tier.FUZZY →
      ∃ id conf, (find_master_car candidates make model year threshold).2 =
        some (id, conf) ∧ threshold ≤ conf ∧ conf < 1) ∧
    ((find_master_car candidates make model year threshold).1 = Tier.FALLBACK →
      ∃ id, (find_master_car candidates make model year threshold).2 =
        some (id, 3 / 10)) ∧
    ((find_master_car candidates make model year threshold).1 = Tier.NONE →
      (find_master_car candidates make model year threshold).2 = none) := by
  rw [find_master_car_eq]
  rcases hE : candidates.find?
      (exactPred (normalize_make make) (normalize_model model) year) with _ | c
  · rcases hFo : ((candidates.filter (makeYearPred (normalize_make make) year)).foldl
        (fuzzyStep (normalize_model model) threshold)
        ((none : Option CarMaster), (0 : ℚ))).1 with _ | c'
    · rcases hH : (candidates.filter (makeYearPred (normalize_make make) year)).head?
        with _ | c''
      · refine ⟨by simp, by simp, by simp, by simp⟩
      · exact ⟨by simp, by simp, fun _ => ⟨c''.id, by simp⟩, by simp⟩
    · obtain ⟨hmem, hs, hth, hpos⟩ := fuzzy_success _ _ _ _ hFo
      refine ⟨by simp, ?_, by simp, by simp⟩
      intro _
      refine ⟨c'.id, _, rfl, hth, ?_⟩
      -- the confidence is the similarity of the (uppercased-distinct) models
      rw [hs]
      rcases lt_or_eq_of_le (similarity_score_le_one (normalize_model model) c'.model)
        with hlt | heq1
      · exact hlt
      · exfalso
        have hupp := similarity_score_eq_one heq1
        have hmem' := List.mem_filter.mp hmem
        have hmy : makeYearPred (normalize_make make) year c' = true := hmem'.2
        simp only [makeYearPred, Bool.and_eq_true, beq_iff_eq] at hmy
        have hexact : exactPred (normalize_make make) (normalize_model model) year c'
            = true := by
          simp only [exactPred, Bool.and_eq_true, beq_iff_eq]
          exact ⟨⟨hmy.1, hupp.symm⟩, hmy.2⟩
        exact absurd hexact (by simpa using List.find?_eq_none.mp hE c' hmem'.1)
  · exact ⟨fun _ => ⟨c.id, by simp⟩, by simp, by simp, by simp⟩

/-- Witness for C3: an aliased make ("Chevy") with an exactly matching
model resolves EXACT with confidence exactly 1. -/
theorem C3_resolution_tiers_witness :
    ∃ id,
      (find_master_car [⟨1, "Chevrolet", "Camaro", 2020⟩] "Chevy" "Camaro"
        2020 (8 / 10)).2 = some (id, 1) :=
  (C3_resolution_tiers [⟨1, "Chevrolet", "Camaro", 2020⟩] "Chevy" "Camaro"
    2020 (8 / 10)).1 (by decide)

/-- C7: the resolver tries exact, fuzzy, fallback, none in strict order,
short-circuiting on the first success, and the fuzzy winner is the first
candidate (in catalog iteration order) attaining the maximum similarity. -/
theorem C7_tier_order_first_max (candidates : List CarMaster) (make model : String)
    (year : Int) (threshold : ℚ) :
    ((∃ c ∈ candidates,
        exactPred (normalize_make make) (normalize_model model) year c = true) →
      (find_master_car candidates make model year threshold).1 = Tier.EXACT) ∧
    (∀ id conf,
      (find_master_car candidates make model year threshold).1 = Tier.FUZZY →
      (find_master_car candidates make model year threshold).2 = some (id, conf) →
      (∀ x ∈ candidates.filter (makeYearPred (normalize_make make) year),
        similarity_score (normalize_model model) x.model ≤ conf) ∧
      ∃ c, (candidates.filter (makeYearPred (normalize_make make) year)).find?
          (fun x => similarity_score (normalize_model model) x.model == conf) =
          some c ∧ id = c.id) ∧
    ((find_master_car candidates make model year threshold).1 = Tier.FALLBACK →
      (¬ ∃ c ∈ candidates,
        exactPred (normalize_make make) (normalize_model model) year c = true) ∧
      (∀ x ∈ candidates.filter (makeYearPred (normalize_make make) year),
        ¬ (0 < similarity_score (normalize_model model) x.model ∧
           threshold ≤ similarity_score (normalize_model model) x.model)) ∧
      ∃ c, (candidates.filter (makeYearPred (normalize_make make) year)).head? =
          some c ∧
        (find_master_car candidates make model year threshold).2 =
          some (c.id, 3 / 10)) ∧
    ((find_master_car candidates make model year threshold).1 = Tier.NONE ↔
      candidates.filter (makeYearPred (normalize_make make) year) = [] ∧
      ¬ ∃ c ∈ candidates,
        exactPred (normalize_make make) (normalize_model model) year c = true) := by
  rw [find_master_car_eq]
  rcases hE : candidates.find?
      (exactPred (normalize_make make) (normalize_model model) year) with _ | c
  · have hnoex : ¬ ∃ c ∈ candidates,
        exactPred (normalize_make make) (normalize_model model) year c = true := by
      rintro ⟨c, hc, hp⟩
      exact absurd hp (by simpa using List.find?_eq_none.mp hE c hc)
    rcases hFo : ((candidates.filter (makeYearPred (normalize_make make) year)).foldl
        (fuzzyStep (normalize_model model) threshold)
        ((none : Option CarMaster), (0 : ℚ))).1 with _ | c'
    · have hnog := fuzzyFold_none (normalize_model model) threshold
        (candidates.filter (makeYearPred (normalize_make make) year))
        ((none : Option CarMaster), (0 : ℚ)) hFo
      rcases hH : (candidates.filter (makeYearPred (normalize_make make) year)).head?
        with _ | c''
      · have hnil : candidates.filter (makeYearPred (normalize_make make) year) = [] :=
          List.head?_eq_none_iff.mp hH
        exact ⟨fun h => absurd h hnoex, by simp, by simp,
          by simp [hnil, hnoex]⟩
      · refine ⟨fun h => absurd h hnoex, by simp, ?_, ?_⟩
        · intro _
          exact ⟨hnoex, fun x hx => by simpa using hnog.2 x hx, c'', rfl, rfl⟩
        · constructor
          · intro h; exact absurd h (by simp)
          · rintro ⟨hnil, _⟩
            rw [hnil] at hH
            exact absurd hH (by simp)
    · obtain ⟨hmem, hs, hth, hpos⟩ := fuzzy_success _ _ _ _ hFo
      have heta : (candidates.filter (makeYearPred (normalize_make make) year)).foldl
          (fuzzyStep (normalize_model model) threshold)
          ((none : Option CarMaster), (0 : ℚ)) =
          (some c',
           ((candidates.filter (makeYearPred (normalize_make make) year)).foldl
            (fuzzyStep (normalize_model model) threshold)
            ((none : Option CarMaster), (0 : ℚ))).2) := by
        rw [← hFo]
      have hfm := fuzzyFold_first_max (normalize_model model) threshold
        (candidates.filter (makeYearPred (normalize_make make) year))
        ((none : Option CarMaster), (0 : ℚ)) c' _ hpos hth heta
      refine ⟨fun h => absurd h hnoex, ?_, by simp, ?_⟩
      · intro id conf _ hr2
        have hinj := Option.some.inj hr2
        have hid1 : c'.id = id := congrArg Prod.fst hinj
        have hid2 : ((candidates.filter (makeYearPred (normalize_make make) year)).foldl
            (fuzzyStep (normalize_model model) threshold)
            ((none : Option CarMaster), (0 : ℚ))).2 = conf := congrArg Prod.snd hinj
        subst hid2
        exact ⟨hfm.1, c', hfm.2, hid1.symm⟩
      · constructor
        · intro h; exact absurd h (by simp)
        · rintro ⟨hnil, _⟩
          rw [hnil] at hFo
          simp at hFo
  · have hcmem := List.mem_of_find?_eq_some hE
    have hcp : exactPred (normalize_make make) (normalize_model model) year c = true :=
      List.find?_some hE
    refine ⟨fun _ => rfl, by simp, by simp, ?_⟩
    constructor
    · intro h; exact absurd h (by simp)
    · rintro ⟨_, hno⟩
      exact absurd ⟨c, hcmem, hcp⟩ hno

/-- Witness for C7: an exact match short-circuits to the EXACT tier. -/
theorem C7_tier_order_first_max_witness :
    (find_master_car [⟨1, "Chevrolet", "Camaro", 2020⟩] "Chevrolet" "Camaro"
      2020 (8 / 10)).1 = Tier.EXACT :=
  (C7_tier_order_first_max [⟨1, "Chevrolet", "Camaro", 2020⟩] "Chevrolet" "Camaro"
    2020 (8 / 10)).1 ⟨⟨1, "Chevrolet", "Camaro", 2020⟩, by decide, by decide⟩

/-- C9: resolution is deterministic — two calls on the same candidate
sequence, listing fields and threshold return the same match id,
confidence and tier (the resolver is a pure function of its inputs). -/
theorem C9_resolution_deterministic (candidates : List CarMaster)
    (make model : String) (year : Int) (threshold : ℚ)
    (r1 r2 : Tier × Option (Nat × ℚ))
    (h1 : r1 = find_master_car candidates make model year threshold)
    (h2 : r2 = find_master_car candidates make model year threshold) :
    r1.1 = r2.1 ∧ r1.2 = r2.2 := by
  subst h1 h2
  exact ⟨rfl, rfl⟩

/-- Witness for C9 at a concrete resolver call. -/
theorem C9_resolution_deterministic_witness :
    (find_master_car [⟨1, "Chevrolet", "Camaro", 2020⟩] "Chevy" "Camaro"
        2020 (8 / 10)).1 =
      (find_master_car [⟨1, "Chevrolet", "Camaro", 2020⟩] "Chevy" "Camaro"
        2020 (8 / 10)).1 :=
  (C9_resolution_deterministic [⟨1, "Chevrolet", "Camaro", 2020⟩] "Chevy" "Camaro"
    2020 (8 / 10) _ _ rfl rfl).1

/-- C5 counterexample: `SequenceMatcher.ratio` is not symmetric
(`similarity("AB", "BACB") = 2/3` but `similarity("BACB", "AB") = 1/3`),
and `similarity("", "") = 0`, not 1, because the empty-string guard fires
before the ratio is computed — both refuting the claim as stated. -/
theorem C5_similarity_counterexample :
    similarity_score "AB" "BACB" = 2 / 3 ∧
    similarity_score "BACB" "AB" = 1 / 3 ∧
    similarity_score "AB" "BACB" ≠ similarity_score "BACB" "AB" ∧
    similarity_score "" "" = 0 ∧ (0 : ℚ) ≠ 1 := by
  have hm1 : matchedCount (pyUpperL "AB".data) (pyUpperL "BACB".data) = 2 := by decide
  have hm2 : matchedCount (pyUpperL "BACB".data) (pyUpperL "AB".data) = 1 := by decide
  have e1 : similarity_score "AB" "BACB" = 2 / 3 := by
    rw [similarity_score, if_neg (by simp)]
    rw [ratioQ, if_neg (by decide)]
    rw [hm1, show (pyUpperL "AB".data).length = 2 from by decide,
      show (pyUpperL "BACB".data).length = 4 from by decide]
    norm_num
  have e2 : similarity_score "BACB" "AB" = 1 / 3 := by
    rw [similarity_score, if_neg (by simp)]
    rw [ratioQ, if_neg (by decide)]
    rw [hm2, show (pyUpperL "BACB".data).length = 4 from by decide,
      show (pyUpperL "AB".data).length = 2 from by decide]
    norm_num
  have e3 : similarity_score "" "" = 0 := by
    rw [similarity_score, if_pos (Or.inl rfl)]
  refine ⟨e1, e2, ?_, e3, by norm_num⟩
  rw [e1, e2]
  norm_num

/-- C5, amended: the similarity always lies in `[0, 1]`,
`similarity("", x) = 0`, and `similarity(a, a) = 1` for every nonempty
`a`; symmetry, however, does not hold in general. -/
theorem C5_similarity_amended (a b : String) :
    0 ≤ similarity_score a b ∧ similarity_score a b ≤ 1 ∧
    similarity_score "" b = 0 ∧
    (a ≠ "" → similarity_score a a = 1) := by
  refine ⟨similarity_score_nonneg a b, similarity_score_le_one a b, ?_, ?_⟩
  · rw [similarity_score, if_pos (Or.inl rfl)]
  · intro h
    exact similarity_score_self h

/-- Witness for C5 (amended) at concrete strings. -/
theorem C5_similarity_amended_witness :
    0 ≤ similarity_score "CAMARO" "MUSTANG" ∧ similarity_score "CAMARO" "CAMARO" = 1 :=
  ⟨(C5_similarity_amended "CAMARO" "MUSTANG").1,
   (C5_similarity_amended "CAMARO" "MUSTANG").2.2.2 (by decide)⟩

/-! ## Scoring-engine theorems -/

lemma applyOverrides_price (intent : UserIntent) (w : FactorWeights) :
    (applyOverrides intent w).price = w.price := by
  unfold applyOverrides
  split_ifs <;> rfl

lemma applyOverrides_reference (intent : UserIntent) (w : FactorWeights) :
    (applyOverrides intent w).reference = w.reference := by
  unfold applyOverrides
  split_ifs <;> rfl

/-- All weights produced by the allocator are nonnegative and the price
weight is positive. -/
lemma computeWeights_fields (intent : UserIntent) (hasRef refIn : Bool) :
    0 < (computeWeights intent hasRef refIn).price ∧
    0 ≤ (computeWeights intent hasRef refIn).performance ∧
    0 ≤ (computeWeights intent hasRef refIn).reliability ∧
    0 ≤ (computeWeights intent hasRef refIn).drivetrain ∧
    0 ≤ (computeWeights intent hasRef refIn).body_style ∧
    0 ≤ (computeWeights intent hasRef refIn).emotional ∧
    0 ≤ (computeWeights intent hasRef refIn).ownership ∧
    ((computeWeights intent hasRef refIn).reference = none ∨
     (computeWeights intent hasRef refIn).reference = some (3 / 20)) := by
  unfold computeWeights applyOverrides baseWeights scaledRefWeights
  split_ifs <;> norm_num

/-- The total weight over present keys is positive. -/
lemma totalWeight_pos (scores : FactorScores) (intent : UserIntent)
    (hasRef refIn : Bool) :
    0 < totalWeight scores (computeWeights intent hasRef refIn) := by
  obtain ⟨h1, h2, h3, h4, h5, h6, h7, h8⟩ := computeWeights_fields intent hasRef refIn
  unfold totalWeight
  have href : 0 ≤ (match scores.reference with
      | some _ => (computeWeights intent hasRef refIn).reference.getD 0
      | none => 0) := by
    rcases scores.reference with _ | r
    · exact le_refl 0
    · rcases h8 with h | h
      · simp [h]
      · simp [h]
        norm_num
  linarith

/-- The source's weighted-aggregate formula `(ws / tw) * tw` collapses to
the plain weighted sum `ws` (the divide-then-multiply cancels, and the
`tw > 0` guard always holds since the price weight is positive). -/
lemma calculate_weighted_score_eq (scores : FactorScores) (intent : UserIntent)
    (hasReference : Bool) :
    calculate_weighted_score scores intent hasReference =
      weightedSum scores
        (computeWeights intent hasReference scores.reference.isSome) := by
  unfold calculate_weighted_score
  have hpos := totalWeight_pos scores intent hasReference scores.reference.isSome
  rw [if_pos hpos]
  exact div_mul_cancel₀ _ (ne_of_gt hpos)

/-- The renormalized weighted average asserted by the claim (weighted sum
divided by the total weight of the present keys). -/
def specRenormalizedAverage (scores : FactorScores) (w : FactorWeights) : ℚ :=
  weightedSum scores w / totalWeight scores w

/-- C2 (amended): the aggregate equals the plain weighted sum over the
factors present — the source divides by the total weight and multiplies
it back, so no renormalization happens; a vehicle lacking a
reference-similarity score is summed only over the other factors. -/
theorem C2_amended_weighted_sum (scores : FactorScores) (intent : UserIntent)
    (hasReference : Bool) :
    calculate_weighted_score scores intent hasReference =
      weightedSum scores
        (computeWeights intent hasReference scores.reference.isSome) :=
  calculate_weighted_score_eq scores intent hasReference

/-! ### A concrete scoring instance

`carA` scores 100 on every factor against `intentA`, and `intentA`
triggers all three weight overrides (performance priority 0.8,
reliability priority 0.8, drivetrain requested), so the total weight is
`0.2 + 0.25 + 0.22 + 0.15 + 0.1 + 0.15 + 0.15 = 1.22` and the aggregate
weighted sum is 122 — above 100. -/

def carA : Car :=
  ⟨"a1", "Audi", "S4", 2021, "Premium", 20000, 300, "AWD", "suv", 10, 10,
   [], [], ["fun", "fast", "luxurious"], 4⟩

def intentA : UserIntent :=
  ⟨none, some 30000, 8 / 10, 8 / 10, 1 / 2, some "AWD", some "suv",
   ["fun", "fast", "luxurious"], [], none⟩

/-- A well-formed distinct reference vehicle (nonzero horsepower and
average price). -/
def carB : Car :=
  ⟨"b2", "BMW", "340i", 2018, "Base", 25000, 320, "RWD", "sedan", 7, 6,
   [], [], ["fun"], 5⟩

/-- A reference vehicle with zero horsepower: `_score_reference_similarity`
divides by `reference.power_hp`, so scoring against it raises. -/
def refZ : Car :=
  ⟨"z0", "Zero", "Z", 2020, "Base", 10000, 0, "AWD", "suv", 5, 5,
   [], [], [], 10⟩

/-- A car priced at exactly 20% under `intentP`'s budget. -/
def carP : Car :=
  ⟨"p1", "Kia", "Rio", 2020, "LX", 80, 100, "FWD", "sedan", 5, 5,
   [], [], [], 9⟩

def intentP : UserIntent :=
  ⟨none, some 100, 1 / 2, 1 / 2, 1 / 2, none, none, [], [], none⟩

/-- A car whose emotional profile exhibits both an avoided tag and a
recorded opposite of that tag. -/
def carC : Car :=
  ⟨"c3", "Toyota", "Camry", 2020, "LE", 28000, 200, "FWD", "sedan", 9, 9,
   [], [], ["boring", "fun"], 8⟩

def intentC : UserIntent :=
  ⟨none, none, 1 / 2, 1 / 2, 1 / 2, none, none, [], ["boring"], none⟩

lemma score_car_full_carA :
    score_car_full carA intentA none =
      some (⟨100, 100, 100, 100, 100, 100, 100, none⟩, 122,
        ["Well under budget at ~$" ++ toString (20000 : ℚ),
         "Seriously quick (0-60 in " ++ toString (4 : ℚ) ++ "s)",
         "Excellent reliability record", "AWD as requested"], []) := by
  norm_num +decide [score_car_full, score_price, score_performance,
    score_reliability, score_drivetrain, score_body_style, score_emotional,
    carEmotions, emotionalPosStep, emotionalNegStep, score_ownership_cost,
    calculate_weighted_score, computeWeights, applyOverrides, baseWeights,
    scaledRefWeights, totalWeight, weightedSum, appOpt, carA, intentA,
    strTruthy, numTruthy, pyUpper, pyLower, pyUpperL, pyLowerL,
    EMOTIONAL_SIMILARITIES, DRIVING_FEEL_TO_EMOTION, NEGATIVE_OPPOSITES,
    min_def, max_def]

/-! ### Range lemmas for the factor scorers -/

lemma score_price_bounds (car : Car) (intent : UserIntent) :
    0 ≤ (score_price car intent).1 ∧ (score_price car intent).1 ≤ 100 := by
  simp only [score_price]
  split_ifs <;> norm_num

lemma score_performance_bounds (car : Car) (intent : UserIntent) :
    0 ≤ (score_performance car intent).1 ∧ (score_performance car intent).1 ≤ 100 := by
  simp only [score_performance]
  split_ifs <;> norm_num [le_max_iff, max_le_iff]

lemma score_reliability_bounds (car : Car) (intent : UserIntent)
    (h0 : 0 ≤ car.reliability_score) (h10 : car.reliability_score ≤ 10) :
    0 ≤ (score_reliability car intent).1 ∧ (score_reliability car intent).1 ≤ 100 := by
  simp only [score_reliability]
  split_ifs <;> refine ⟨?_, ?_⟩ <;> simp only [le_max_iff, max_le_iff] <;>
    first
      | linarith
      | exact Or.inr (by norm_num)
      | exact ⟨by linarith, by norm_num⟩

lemma score_drivetrain_bounds (car : Car) (intent : UserIntent) :
    0 ≤ (score_drivetrain car intent).1 ∧ (score_drivetrain car intent).1 ≤ 100 := by
  simp only [score_drivetrain]
  split_ifs <;> norm_num

lemma score_body_style_bounds (car : Car) (intent : UserIntent) :
    0 ≤ score_body_style car intent ∧ score_body_style car intent ≤ 100 := by
  simp only [score_body_style]
  split_ifs <;> norm_num

lemma score_emotional_bounds (car : Car) (intent : UserIntent) :
    0 ≤ (score_emotional car intent).1 ∧ (score_emotional car intent).1 ≤ 100 := by
  simp only [score_emotional]
  split_ifs <;> dsimp only <;> refine ⟨?_, ?_⟩ <;> norm_num

lemma score_ownership_cost_bounds (car : Car)
    (h0 : 0 ≤ car.ownership_cost_score) (h10 : car.ownership_cost_score ≤ 10) :
    0 ≤ score_ownership_cost car ∧ score_ownership_cost car ≤ 100 := by
  unfold score_ownership_cost
  constructor <;> linarith

lemma referenceSimilarityPoints_nonneg (car ref : Car) :
    0 ≤ referenceSimilarityPoints car ref := by
  unfold referenceSimilarityPoints
  refine add_nonneg (add_nonneg (add_nonneg (add_nonneg (add_nonneg
    (add_nonneg ?_ ?_) ?_) ?_) ?_) ?_) ?_ <;> positivity

lemma score_reference_similarity_bounds (car ref : Car) (s : ℚ) (r : Option String)
    (h : score_reference_similarity car ref = some (s, r)) :
    0 ≤ s ∧ s ≤ 100 := by
  unfold score_reference_similarity at h
  split_ifs at h
  simp only [Option.some.injEq, Prod.mk.injEq] at h
  obtain ⟨hs, _⟩ := h
  rw [← hs]
  exact ⟨le_min (by norm_num) (referenceSimilarityPoints_nonneg car ref),
    min_le_left 100 _⟩

/-! ### Aggregate bounds -/

/-- The total weight over present keys never exceeds 1.325 (attained
with a reference vehicle and all three priority overrides). -/
lemma totalWeight_le (scores : FactorScores) (intent : UserIntent) (b : Bool) :
    totalWeight scores (computeWeights intent b scores.reference.isSome) ≤ 53 / 40 := by
  rcases href : scores.reference with _ | r <;>
    · simp only [totalWeight, href, computeWeights, applyOverrides, baseWeights,
        scaledRefWeights]
      split_ifs <;> norm_num

/-- With no priority override and no drivetrain preference the weights
sum to exactly 1. -/
lemma totalWeight_no_override (scores : FactorScores) (intent : UserIntent) (b : Bool)
    (h1 : intent.performance_priority ≤ 7 / 10)
    (h2 : intent.reliability_priority ≤ 7 / 10)
    (h3 : ¬ strTruthy intent.drivetrain) :
    totalWeight scores (computeWeights intent b scores.reference.isSome) = 1 := by
  rcases href : scores.reference with _ | r
  · simp only [totalWeight, href, computeWeights, applyOverrides, baseWeights,
      scaledRefWeights, if_neg (not_lt.mpr h1), if_neg (not_lt.mpr h2),
      if_neg h3]
    split_ifs with hc
    · simp at hc
    · norm_num
  · simp only [totalWeight, href, computeWeights, applyOverrides, baseWeights,
      scaledRefWeights, if_neg (not_lt.mpr h1), if_neg (not_lt.mpr h2),
      if_neg h3]
    split_ifs <;> norm_num

/-- The weighted sum over present factors is nonnegative and at most
`100 ×` the total weight, for factor scores in `[0, 100]` (consistency:
a present reference score implies `has_reference`). -/
lemma weightedSum_bounds (scores : FactorScores) (intent : UserIntent) (b : Bool)
    (hcons : scores.reference.isSome → b = true)
    (hp : 0 ≤ scores.price ∧ scores.price ≤ 100)
    (hpe : 0 ≤ scores.performance ∧ scores.performance ≤ 100)
    (hre : 0 ≤ scores.reliability ∧ scores.reliability ≤ 100)
    (hdr : 0 ≤ scores.drivetrain ∧ scores.drivetrain ≤ 100)
    (hbo : 0 ≤ scores.body_style ∧ scores.body_style ≤ 100)
    (hem : 0 ≤ scores.emotional ∧ scores.emotional ≤ 100)
    (how : 0 ≤ scores.ownership ∧ scores.ownership ≤ 100)
    (hrf : ∀ r, scores.reference = some r → 0 ≤ r ∧ r ≤ 100) :
    0 ≤ weightedSum scores (computeWeights intent b scores.reference.isSome) ∧
    weightedSum scores (computeWeights intent b scores.reference.isSome) ≤
      100 * totalWeight scores (computeWeights intent b scores.reference.isSome) := by
  obtain ⟨w1, w2, w3, w4, w5, w6, w7, w8⟩ :=
    computeWeights_fields intent b scores.reference.isSome
  set w := computeWeights intent b scores.reference.isSome with hw
  have hterm : ∀ (s wt : ℚ), 0 ≤ s → s ≤ 100 → 0 ≤ wt →
      0 ≤ s * wt ∧ s * wt ≤ 100 * wt := by
    intro s wt hs0 hs100 hwt
    exact ⟨mul_nonneg hs0 hwt, mul_le_mul_of_nonneg_right hs100 hwt⟩
  have t1 := hterm _ _ hp.1 hp.2 (le_of_lt w1)
  have t2 := hterm _ _ hpe.1 hpe.2 w2
  have t3 := hterm _ _ hre.1 hre.2 w3
  have t4 := hterm _ _ hdr.1 hdr.2 w4
  have t5 := hterm _ _ hbo.1 hbo.2 w5
  have t6 := hterm _ _ hem.1 hem.2 w6
  have t7 := hterm _ _ how.1 how.2 w7
  rcases href : scores.reference with _ | r
  · have hws : weightedSum scores w =
        scores.price * w.price + scores.performance * w.performance +
        scores.reliability * w.reliability + scores.drivetrain * w.drivetrain +
        scores.body_style * w.body_style + scores.emotional * w.emotional +
        scores.ownership * w.ownership := by
      simp [weightedSum, href]
    have htw : totalWeight scores w =
        w.price + w.performance + w.reliability + w.drivetrain +
        w.body_style + w.emotional + w.ownership := by
      simp [totalWeight, href]
    rw [hws, htw]
    constructor <;> linarith
  · have hb : b = true := hcons (by rw [href]; rfl)
    have hwr : w.reference = some (3 / 20) := by
      rw [hw, computeWeights, applyOverrides_reference]
      rw [if_pos ⟨hb, by rw [href]; rfl⟩]
      rfl
    obtain ⟨hr0, hr100⟩ := hrf r href
    have t8 := hterm r (3 / 20) hr0 hr100 (by norm_num)
    have hws : weightedSum scores w =
        scores.price * w.price + scores.performance * w.performance +
        scores.reliability * w.reliability + scores.drivetrain * w.drivetrain +
        scores.body_style * w.body_style + scores.emotional * w.emotional +
        scores.ownership * w.ownership + r * (3 / 20) := by
      simp [weightedSum, href, hwr]
    have htw : totalWeight scores w =
        w.price + w.performance + w.reliability + w.drivetrain +
        w.body_style + w.emotional + w.ownership + 3 / 20 := by
      simp [totalWeight, href, hwr]
    rw [hws, htw]
    constructor <;> linarith

/-- Bounds on the final aggregate, given factor scores in range. -/
lemma aggregate_bounds (scores : FactorScores) (intent : UserIntent) (b : Bool)
    (hcons : scores.reference.isSome → b = true)
    (hp : 0 ≤ scores.price ∧ scores.price ≤ 100)
    (hpe : 0 ≤ scores.performance ∧ scores.performance ≤ 100)
    (hre : 0 ≤ scores.reliability ∧ scores.reliability ≤ 100)
    (hdr : 0 ≤ scores.drivetrain ∧ scores.drivetrain ≤ 100)
    (hbo : 0 ≤ scores.body_style ∧ scores.body_style ≤ 100)
    (hem : 0 ≤ scores.emotional ∧ scores.emotional ≤ 100)
    (how : 0 ≤ scores.ownership ∧ scores.ownership ≤ 100)
    (hrf : ∀ r, scores.reference = some r → 0 ≤ r ∧ r ≤ 100) :
    0 ≤ calculate_weighted_score scores intent b ∧
    calculate_weighted_score scores intent b ≤ 265 / 2 ∧
    (intent.performance_priority ≤ 7 / 10 → intent.reliability_priority ≤ 7 / 10 →
      ¬ strTruthy intent.drivetrain → calculate_weighted_score scores intent b ≤ 100) := by
  rw [calculate_weighted_score_eq]
  obtain ⟨hws0, hws1⟩ := weightedSum_bounds scores intent b hcons hp hpe hre hdr
    hbo hem how hrf
  have htwle := totalWeight_le scores intent b
  refine ⟨hws0, by linarith, ?_⟩
  intro h1 h2 h3
  have := totalWeight_no_override scores intent b h1 h2 h3
  rw [this] at hws1
  linarith

/-! ### Case characterizations of `_score_car` -/

/-- `_score_car` with no reference vehicle. -/
lemma score_car_full_no_ref (car : Car) (intent : UserIntent) :
    score_car_full car intent none =
      some (⟨(score_price car intent).1, (score_performance car intent).1,
          (score_reliability car intent).1, (score_drivetrain car intent).1,
          score_body_style car intent, (score_emotional car intent).1,
          score_ownership_cost car, none⟩,
        calculate_weighted_score
          ⟨(score_price car intent).1, (score_performance car intent).1,
           (score_reliability car intent).1, (score_drivetrain car intent).1,
           score_body_style car intent, (score_emotional car intent).1,
           score_ownership_cost car, none⟩ intent false,
        ((appOpt (appOpt (appOpt (appOpt [] (score_price car intent).2.1)
            (score_performance car intent).2.1) (score_reliability car intent).2.1)
            (score_drivetrain car intent).2.1 ++ (score_emotional car intent).2.1)
          ++ []).take 4,
        (appOpt (appOpt (appOpt (appOpt [] (score_price car intent).2.2)
            (score_performance car intent).2.2) (score_reliability car intent).2.2)
            (score_drivetrain car intent).2.2
          ++ (score_emotional car intent).2.2).take 3) := rfl

/-- `_score_car` when the reference vehicle is the scored car itself
(`car.id == reference_car.id`): the reference factor is skipped entirely. -/
lemma score_car_full_self_ref (car : Car) (intent : UserIntent) (R : Car)
    (hid : car.id = R.id) :
    score_car_full car intent (some R) =
      some (⟨(score_price car intent).1, (score_performance car intent).1,
          (score_reliability car intent).1, (score_drivetrain car intent).1,
          score_body_style car intent, (score_emotional car intent).1,
          score_ownership_cost car, none⟩,
        calculate_weighted_score
          ⟨(score_price car intent).1, (score_performance car intent).1,
           (score_reliability car intent).1, (score_drivetrain car intent).1,
           score_body_style car intent, (score_emotional car intent).1,
           score_ownership_cost car, none⟩ intent true,
        ((appOpt (appOpt (appOpt (appOpt [] (score_price car intent).2.1)
            (score_performance car intent).2.1) (score_reliability car intent).2.1)
            (score_drivetrain car intent).2.1 ++ (score_emotional car intent).2.1)
          ++ []).take 4,
        (appOpt (appOpt (appOpt (appOpt [] (score_price car intent).2.2)
            (score_performance car intent).2.2) (score_reliability car intent).2.2)
            (score_drivetrain car intent).2.2
          ++ (score_emotional car intent).2.2).take 3) := by
  simp only [score_car_full]
  rw [if_neg (fun hne => hne hid)]
  rfl

/-- `_score_car` against a distinct reference vehicle whose similarity
scorer succeeds. -/
lemma score_car_full_other_ref (car : Car) (intent : UserIntent) (R : Car)
    (s : ℚ) (r : Option String) (hid : car.id ≠ R.id)
    (hs : score_reference_similarity car R = some (s, r)) :
    score_car_full car intent (some R) =
      some (⟨(score_price car intent).1, (score_performance car intent).1,
          (score_reliability car intent).1, (score_drivetrain car intent).1,
          score_body_style car intent, (score_emotional car intent).1,
          score_ownership_cost car, some s⟩,
        calculate_weighted_score
          ⟨(score_price car intent).1, (score_performance car intent).1,
           (score_reliability car intent).1, (score_drivetrain car intent).1,
           score_body_style car intent, (score_emotional car intent).1,
           score_ownership_cost car, some s⟩ intent true,
        ((appOpt (appOpt (appOpt (appOpt [] (score_price car intent).2.1)
            (score_performance car intent).2.1) (score_reliability car intent).2.1)
            (score_drivetrain car intent).2.1 ++ (score_emotional car intent).2.1)
          ++ appOpt [] r).take 4,
        (appOpt (appOpt (appOpt (appOpt [] (score_price car intent).2.2)
            (score_performance car intent).2.2) (score_reliability car intent).2.2)
            (score_drivetrain car intent).2.2
          ++ (score_emotional car intent).2.2).take 3) := by
  simp only [score_car_full, hs]
  rw [if_pos hid]
  rfl

/-- `_score_car` against a distinct reference vehicle on which the
similarity scorer's division raises. -/
lemma score_car_full_raises (car : Car) (intent : UserIntent) (R : Car)
    (hid : car.id ≠ R.id) (hs : score_reference_similarity car R = none) :
    score_car_full car intent (some R) = none := by
  simp only [score_car_full, hs]
  rw [if_pos hid]

/-- C1 (amended): whenever the scoring pass returns a result, each
per-factor score lies in `[0, 100]` (given the documented `0–10` ranges
of the car's reliability and ownership-cost inputs), but the aggregate
is only guaranteed to lie in `[0, 132.5]`; it is bounded by 100 exactly
when no priority override fires and no drivetrain is requested (then the
weights sum to 1). The original `[0,100]` claim for the aggregate is
false: overridden weights sum above 1. -/
theorem C1_amended_score_ranges (car : Car) (intent : UserIntent)
    (referenceCar : Option Car) (scores : FactorScores) (agg : ℚ)
    (reasons tradeoffs : List String)
    (hrel0 : 0 ≤ car.reliability_score) (hrel10 : car.reliability_score ≤ 10)
    (hown0 : 0 ≤ car.ownership_cost_score) (hown10 : car.ownership_cost_score ≤ 10)
    (h : score_car_full car intent referenceCar =
      some (scores, agg, reasons, tradeoffs)) :
    (0 ≤ scores.price ∧ scores.price ≤ 100) ∧
    (0 ≤ scores.performance ∧ scores.performance ≤ 100) ∧
    (0 ≤ scores.reliability ∧ scores.reliability ≤ 100) ∧
    (0 ≤ scores.drivetrain ∧ scores.drivetrain ≤ 100) ∧
    (0 ≤ scores.body_style ∧ scores.body_style ≤ 100) ∧
    (0 ≤ scores.emotional ∧ scores.emotional ≤ 100) ∧
    (0 ≤ scores.ownership ∧ scores.ownership ≤ 100) ∧
    (∀ r, scores.reference = some r → 0 ≤ r ∧ r ≤ 100) ∧
    0 ≤ agg ∧ agg ≤ 265 / 2 ∧
    (intent.performance_priority ≤ 7 / 10 → intent.reliability_priority ≤ 7 / 10 →
      ¬ strTruthy intent.drivetrain → agg ≤ 100) := by
  have main : ∀ (refS : Option ℚ) (b : Bool),
      (refS.isSome → b = true) →
      (∀ r, refS = some r → 0 ≤ r ∧ r ≤ 100) →
      scores = ⟨(score_price car intent).1, (score_performance car intent).1,
        (score_reliability car intent).1, (score_drivetrain car intent).1,
        score_body_style car intent, (score_emotional car intent).1,
        score_ownership_cost car, refS⟩ →
      agg = calculate_weighted_score
        ⟨(score_price car intent).1, (score_performance car intent).1,
         (score_reliability car intent).1, (score_drivetrain car intent).1,
         score_body_style car intent, (score_emotional car intent).1,
         score_ownership_cost car, refS⟩ intent b →
      (0 ≤ scores.price ∧ scores.price ≤ 100) ∧
      (0 ≤ scores.performance ∧ scores.performance ≤ 100) ∧
      (0 ≤ scores.reliability ∧ scores.reliability ≤ 100) ∧
      (0 ≤ scores.drivetrain ∧ scores.drivetrain ≤ 100) ∧
      (0 ≤ scores.body_style ∧ scores.body_style ≤ 100) ∧
      (0 ≤ scores.emotional ∧ scores.emotional ≤ 100) ∧
      (0 ≤ scores.ownership ∧ scores.ownership ≤ 100) ∧
      (∀ r, scores.reference = some r → 0 ≤ r ∧ r ≤ 100) ∧
      0 ≤ agg ∧ agg ≤ 265 / 2 ∧
      (intent.performance_priority ≤ 7 / 10 → intent.reliability_priority ≤ 7 / 10 →
        ¬ strTruthy intent.drivetrain → agg ≤ 100) := by
    intro refS b hcons hrefb hsc hagg
    subst hsc
    refine ⟨score_price_bounds car intent, score_performance_bounds car intent,
      score_reliability_bounds car intent hrel0 hrel10,
      score_drivetrain_bounds car intent, score_body_style_bounds car intent,
      score_emotional_bounds car intent,
      score_ownership_cost_bounds car hown0 hown10, hrefb, ?_⟩
    rw [hagg]
    exact aggregate_bounds _ intent b hcons (score_price_bounds car intent)
      (score_performance_bounds car intent)
      (score_reliability_bounds car intent hrel0 hrel10)
      (score_drivetrain_bounds car intent) (score_body_style_bounds car intent)
      (score_emotional_bounds car intent)
      (score_ownership_cost_bounds car hown0 hown10) hrefb
  rcases referenceCar with _ | R
  · rw [score_car_full_no_ref] at h
    simp only [Option.some.injEq, Prod.mk.injEq] at h
    exact main none false (fun hc => by simp at hc) (fun r hr => by simp at hr)
      h.1.symm h.2.1.symm
  · by_cases hid : car.id = R.id
    · rw [score_car_full_self_ref car intent R hid] at h
      simp only [Option.some.injEq, Prod.mk.injEq] at h
      exact main none true (fun _ => rfl) (fun r hr => by simp at hr)
        h.1.symm h.2.1.symm
    · rcases hs : score_reference_similarity car R with _ | ⟨s, r⟩
      · rw [score_car_full_raises car intent R hid hs] at h
        exact absurd h (by simp)
      · rw [score_car_full_other_ref car intent R s r hid hs] at h
        simp only [Option.some.injEq, Prod.mk.injEq] at h
        refine main (some s) true (fun _ => rfl) ?_ h.1.symm h.2.1.symm
        intro r' hr'
        rw [Option.some.injEq] at hr'
        rw [← hr']
        exact score_reference_similarity_bounds car R s r hs

/-- C1 witness: the amended theorem applied to the concrete `carA` /
`intentA` instance (aggregate 122). -/
theorem C1_amended_score_ranges_witness :
    ((0 : ℚ) ≤ carA.reliability_score ∧ carA.reliability_score ≤ 10 ∧
     (0 : ℚ) ≤ carA.ownership_cost_score ∧ carA.ownership_cost_score ≤ 10 ∧
     score_car_full carA intentA none =
       some (⟨100, 100, 100, 100, 100, 100, 100, none⟩, 122,
         ["Well under budget at ~$" ++ toString (20000 : ℚ),
          "Seriously quick (0-60 in " ++ toString (4 : ℚ) ++ "s)",
          "Excellent reliability record", "AWD as requested"], [])) ∧
    (0 ≤ (122 : ℚ) ∧ (122 : ℚ) ≤ 265 / 2 ∧
      (intentA.performance_priority ≤ 7 / 10 →
        intentA.reliability_priority ≤ 7 / 10 →
        ¬ strTruthy intentA.drivetrain → (122 : ℚ) ≤ 100)) := by
  refine ⟨⟨by norm_num [carA], by norm_num [carA], by norm_num [carA],
    by norm_num [carA], score_car_full_carA⟩, ?_⟩
  have h := C1_amended_score_ranges carA intentA none
    ⟨100, 100, 100, 100, 100, 100, 100, none⟩ 122 _ _
    (by norm_num [carA]) (by norm_num [carA]) (by norm_num [carA])
    (by norm_num [carA]) score_car_full_carA
  exact ⟨h.2.2.2.2.2.2.2.2.1, h.2.2.2.2.2.2.2.2.2.1, h.2.2.2.2.2.2.2.2.2.2⟩

/-- C1 counterexample: a concrete car and intent (all factors at 100,
all three weight overrides active) whose aggregate score is 122, above
100 — refuting the claim that the aggregate always lies in `[0, 100]`. -/
theorem C1_score_range_counterexample :
    ∃ scores reasons tradeoffs,
      score_car_full carA intentA none = some (scores, 122, reasons, tradeoffs) ∧
      ¬ ((122 : ℚ) ≤ 100) :=
  ⟨_, _, _, score_car_full_carA, by norm_num⟩

/-- C2 counterexample: on the concrete `carA`/`intentA` instance the
renormalized weighted average asserted by the claim is 100, but the
aggregate the code produces is the un-renormalized weighted sum 122. -/
theorem C2_renormalized_average_counterexample :
    ∃ (scores : FactorScores) (reasons tradeoffs : List String),
      score_car_full carA intentA none = some (scores, 122, reasons, tradeoffs) ∧
      specRenormalizedAverage scores
        (computeWeights intentA false scores.reference.isSome) = 100 ∧
      (122 : ℚ) ≠ 100 := by
  refine ⟨⟨100, 100, 100, 100, 100, 100, 100, none⟩, _, _, score_car_full_carA,
    ?_, by norm_num⟩
  norm_num +decide [specRenormalizedAverage, weightedSum, totalWeight,
    computeWeights, applyOverrides, baseWeights, scaledRefWeights, intentA,
    strTruthy]

/-- `has_reference` is irrelevant to the aggregate when no reference
score is present (the weight dictionaries then agree on present keys). -/
lemma calculate_weighted_score_hasRef_irrel (scores : FactorScores)
    (intent : UserIntent) (h : scores.reference = none) (b : Bool) :
    calculate_weighted_score scores intent b =
      calculate_weighted_score scores intent false := by
  rw [calculate_weighted_score_eq, calculate_weighted_score_eq]
  have hb : scores.reference.isSome = false := by rw [h]; rfl
  rw [hb]
  rcases b with _ | _
  · rfl
  · rfl

/-- C10: when the reference descriptor resolves to a catalog vehicle `R`,
scoring a car equal to `R` itself skips the reference factor entirely —
no reference score is recorded, the aggregate is the weighted sum over
the seven base factors with the unscaled (override-adjusted) base
weights, and the result coincides with scoring without any reference;
every distinct vehicle instead carries a reference score whose weights
are the base weights scaled by 0.85 plus a 0.15 reference weight. -/
theorem C10_self_reference_excluded (car : Car) (intent : UserIntent) (R : Car)
    (scores : FactorScores) (agg : ℚ) (reasons tradeoffs : List String)
    (h : score_car_full car intent (some R) =
      some (scores, agg, reasons, tradeoffs)) :
    (car.id = R.id →
      scores.reference = none ∧
      agg = weightedSum scores (applyOverrides intent baseWeights) ∧
      score_car_full car intent (some R) = score_car_full car intent none) ∧
    (car.id ≠ R.id →
      ∃ s, scores.reference = some s ∧
        agg = weightedSum scores (applyOverrides intent scaledRefWeights) ∧
        (applyOverrides intent scaledRefWeights).reference = some (3 / 20)) := by
  constructor
  · intro hid
    rw [score_car_full_self_ref car intent R hid] at h
    simp only [Option.some.injEq, Prod.mk.injEq] at h
    obtain ⟨hsc, hagg, -, -⟩ := h
    subst hsc
    refine ⟨rfl, ?_, ?_⟩
    · rw [← hagg, calculate_weighted_score_eq]
      rfl
    · rw [score_car_full_self_ref car intent R hid, score_car_full_no_ref]
      rw [calculate_weighted_score_hasRef_irrel _ intent rfl true]
  · intro hid
    rcases hs : score_reference_similarity car R with _ | ⟨s, r⟩
    · rw [score_car_full_raises car intent R hid hs] at h
      exact absurd h (by simp)
    · rw [score_car_full_other_ref car intent R s r hid hs] at h
      simp only [Option.some.injEq, Prod.mk.injEq] at h
      obtain ⟨hsc, hagg, -, -⟩ := h
      subst hsc
      refine ⟨s, rfl, ?_, ?_⟩
      · rw [← hagg, calculate_weighted_score_eq]
        rfl
      · rw [applyOverrides_reference]
        rfl

/-- `_score_car` of `carA` against itself as reference: identical to the
reference-free result. -/
lemma score_car_full_carA_self :
    score_car_full carA intentA (some carA) =
      some (⟨100, 100, 100, 100, 100, 100, 100, none⟩, 122,
        ["Well under budget at ~$" ++ toString (20000 : ℚ),
         "Seriously quick (0-60 in " ++ toString (4 : ℚ) ++ "s)",
         "Excellent reliability record", "AWD as requested"], []) := by
  norm_num +decide [score_car_full, score_price, score_performance,
    score_reliability, score_drivetrain, score_body_style, score_emotional,
    carEmotions, emotionalPosStep, emotionalNegStep, score_ownership_cost,
    calculate_weighted_score, computeWeights, applyOverrides, baseWeights,
    scaledRefWeights, totalWeight, weightedSum, appOpt, carA, intentA,
    strTruthy, numTruthy, pyUpper, pyLower, pyUpperL, pyLowerL,
    EMOTIONAL_SIMILARITIES, DRIVING_FEEL_TO_EMOTION, NEGATIVE_OPPOSITES,
    min_def, max_def]

/-- C10 witness: scoring `carA` with itself as the resolved reference. -/
theorem C10_self_reference_excluded_witness :
    score_car_full carA intentA (some carA) =
      some (⟨100, 100, 100, 100, 100, 100, 100, none⟩, 122,
        ["Well under budget at ~$" ++ toString (20000 : ℚ),
         "Seriously quick (0-60 in " ++ toString (4 : ℚ) ++ "s)",
         "Excellent reliability record", "AWD as requested"], []) ∧
    ((⟨100, 100, 100, 100, 100, 100, 100, none⟩ : FactorScores).reference = none ∧
      (122 : ℚ) = weightedSum ⟨100, 100, 100, 100, 100, 100, 100, none⟩
        (applyOverrides intentA baseWeights) ∧
      score_car_full carA intentA (some carA) =
        score_car_full carA intentA none) :=
  ⟨score_car_full_carA_self,
   (C10_self_reference_excluded carA intentA carA
      ⟨100, 100, 100, 100, 100, 100, 100, none⟩ 122 _ _
      score_car_full_carA_self).1 rfl⟩

/-- C6 (amended): the resolver is a total function, and the scoring pass
is total except for the unguarded divisions of
`_score_reference_similarity`: scoring a car against a distinct
reference vehicle with zero horsepower or zero average price raises; in
every other case a defined result is returned. -/
theorem C6_amended_totality (car : Car) (intent : UserIntent)
    (referenceCar : Option Car)
    (h : ∀ R, referenceCar = some R → car.id ≠ R.id →
      R.power_hp ≠ 0 ∧ R.avg_price ≠ 0) :
    (score_car_full car intent referenceCar).isSome = true := by
  rcases referenceCar with _ | R
  · rw [score_car_full_no_ref]
    rfl
  · by_cases hid : car.id = R.id
    · rw [score_car_full_self_ref car intent R hid]
      rfl
    · obtain ⟨h1, h2⟩ := h R rfl hid
      rcases hs : score_reference_similarity car R with _ | ⟨s, r⟩
      · rw [score_reference_similarity,
          if_neg (show ¬ (R.power_hp = 0 ∨ R.avg_price = 0) from by
            push_neg
            exact ⟨h1, h2⟩)] at hs
        simp at hs
      · rw [score_car_full_other_ref car intent R s r hid hs]
        rfl

/-- C6 witness: scoring against a well-formed distinct reference vehicle
returns a defined result. -/
theorem C6_amended_totality_witness :
    (∀ R : Car, some carB = some R → carA.id ≠ R.id →
      R.power_hp ≠ 0 ∧ R.avg_price ≠ 0) ∧
    (score_car_full carA intentA (some carB)).isSome = true := by
  have hh : ∀ R : Car, some carB = some R → carA.id ≠ R.id →
      R.power_hp ≠ 0 ∧ R.avg_price ≠ 0 := by
    intro R hR _
    injection hR with hR'
    subst hR'
    constructor <;> norm_num [carB]
  exact ⟨hh, C6_amended_totality carA intentA (some carB) hh⟩

/-- C6 counterexample: scoring against a distinct reference vehicle with
zero horsepower hits an unguarded division (`ZeroDivisionError` in the
source), refuting totality of the scoring pass. -/
theorem C6_totality_counterexample :
    score_car_full carA intentA (some refZ) = none ∧ refZ.power_hp = 0 := by
  constructor
  · apply score_car_full_raises
    · decide
    · norm_num [score_reference_similarity, refZ]
  · rfl

/-- C4 (amended): the price tiers of `_score_price`, with the corrected
boundary — a headroom of exactly 20% scores 95, not 100, because the
source tests `headroom > 0.2` strictly; reasons appear on the
under-budget branches and tradeoffs on the over-budget branches. -/
theorem C4_amended_price_tiers (car : Car) (intent : UserIntent) :
    (intent.budget_max = none → score_price car intent = (80, none, none)) ∧
    (∀ b : ℚ, intent.budget_max = some b → 0 < b →
      (car.avg_price ≤ b →
        (1 / 5 < (b - car.avg_price) / b → (score_price car intent).1 = 100) ∧
        ((b - car.avg_price) / b ≤ 1 / 5 → (score_price car intent).1 = 95) ∧
        (score_price car intent).2.1.isSome = true ∧
        (score_price car intent).2.2 = none) ∧
      (b < car.avg_price →
        ((car.avg_price - b) / b < 1 / 10 → (score_price car intent).1 = 75) ∧
        (1 / 10 ≤ (car.avg_price - b) / b → (car.avg_price - b) / b < 1 / 5 →
          (score_price car intent).1 = 50) ∧
        (1 / 5 ≤ (car.avg_price - b) / b → (score_price car intent).1 = 20) ∧
        (score_price car intent).2.1 = none ∧
        (score_price car intent).2.2.isSome = true)) := by
  constructor
  · intro h
    simp [score_price, h, numTruthy]
  · intro b hb hpos
    have hnt : numTruthy intent.budget_max = true := by
      rw [hb]
      simp [numTruthy]
      exact ne_of_gt hpos
    have hunf : score_price car intent =
        (if car.avg_price ≤ b then
          if 1 / 5 < (b - car.avg_price) / b then
            (100, some ("Well under budget at ~$" ++ toString car.avg_price), none)
          else
            (95, some ("Fits your $" ++ toString b ++ " budget nicely"), none)
        else
          if (car.avg_price - b) / b < 1 / 10 then
            (75, none,
              some ("Slightly over budget (~$" ++ toString car.avg_price ++ ")"))
          else if (car.avg_price - b) / b < 1 / 5 then
            (50, none, some ("Above budget at ~$" ++ toString car.avg_price))
          else
            (20, none,
              some ("Significantly over budget at ~$" ++ toString car.avg_price))) := by
      rw [score_price, if_neg]
      · rw [hb]
        rfl
      · rw [hnt]
        simp
    rw [hunf]
    constructor
    · intro hle
      rw [if_pos hle]
      refine ⟨?_, ?_, ?_, ?_⟩
      · intro hh
        rw [if_pos hh]
      · intro hh
        rw [if_neg (not_lt.mpr hh)]
      · split_ifs <;> rfl
      · split_ifs <;> rfl
    · intro hgt
      rw [if_neg (not_le.mpr hgt)]
      refine ⟨?_, ?_, ?_, ?_, ?_⟩
      · intro hh
        rw [if_pos hh]
      · intro h1 h2
        rw [if_neg (not_lt.mpr h1), if_pos h2]
      · intro hh
        rw [if_neg (not_lt.mpr (le_trans (by norm_num) hh)),
          if_neg (not_lt.mpr hh)]
      · split_ifs <;> rfl
      · split_ifs <;> rfl

/-- C4 witness: a budget of 100 against a car priced 80 (headroom exactly
20%) falls on the tight-fit branch and scores 95. -/
theorem C4_amended_price_tiers_witness :
    (intentP.budget_max = some 100 ∧ (0 : ℚ) < 100 ∧ carP.avg_price ≤ 100 ∧
      ((100 : ℚ) - carP.avg_price) / 100 ≤ 1 / 5) ∧
    (score_price carP intentP).1 = 95 := by
  refine ⟨⟨rfl, by norm_num, by norm_num [carP], by norm_num [carP]⟩, ?_⟩
  exact (((C4_amended_price_tiers carP intentP).2 100 rfl (by norm_num)).1
    (by norm_num [carP])).2.1 (by norm_num [carP])

/-- C4 counterexample: with budget 100 and average price 80 the headroom
is exactly 20%, which the claim places on the 100-score branch
("at least 20% headroom") but the source scores 95 (`> 0.2` strict). -/
theorem C4_price_tiers_counterexample :
    intentP.budget_max = some 100 ∧
    ((100 : ℚ) - carP.avg_price) / 100 = 1 / 5 ∧
    (score_price carP intentP).1 = 95 ∧ (95 : ℚ) ≠ 100 := by
  refine ⟨rfl, by norm_num [carP], ?_, by norm_num⟩
  norm_num +decide [score_price, carP, intentP, numTruthy]

/-- C8 (amended): the emotional scorer. An empty emotional/negative tag
list yields a flat 70 with no reasons or tradeoffs. Each wanted tag adds
+20 when directly in the car's profile, +12 when only a similar tag is,
else 0. Each avoided tag the car exhibits contributes a penalty of 25
and a `"May feel ..."` tradeoff — and, due to the source's `continue`,
no opposite bonus; the +10 opposite bonus applies only when the avoided
tag is not exhibited and a recorded opposite is. The score is
`clamp(50 + min(positive + bonus, 50) − min(negative, 40), 0, 100)`. -/
theorem C8_amended_emotional (car : Car) (intent : UserIntent) :
    (intent.emotional_tags = [] → intent.negative_tags = [] →
      score_emotional car intent = (70, [], [])) ∧
    (∀ t, (pyLower t ∈ carEmotions car →
        (emotionalPosStep (carEmotions car) t).1 = 20) ∧
      (pyLower t ∉ carEmotions car →
        (EMOTIONAL_SIMILARITIES (pyLower t)).any
          (fun s => s ∈ carEmotions car) = true →
        (emotionalPosStep (carEmotions car) t).1 = 12) ∧
      (pyLower t ∉ carEmotions car →
        (EMOTIONAL_SIMILARITIES (pyLower t)).any
          (fun s => s ∈ carEmotions car) = false →
        (emotionalPosStep (carEmotions car) t).1 = 0)) ∧
    (∀ t, pyLower t ∈ carEmotions car →
      emotionalNegStep (carEmotions car) t =
        (25, 0, [], ["May feel " ++ pyLower t])) ∧
    (∀ t, pyLower t ∉ carEmotions car →
      (NEGATIVE_OPPOSITES (pyLower t)).any
        (fun s => s ∈ carEmotions car) = true →
      emotionalNegStep (carEmotions car) t =
        (0, 10, ["Definitely not " ++ pyLower t], [])) ∧
    (∀ t, t ∈ intent.negative_tags → pyLower t ∈ carEmotions car →
      ("May feel " ++ pyLower t) ∈ (score_emotional car intent).2.2) ∧
    (¬ (intent.emotional_tags = [] ∧ intent.negative_tags = []) →
      (score_emotional car intent).1 =
        max 0 (min 100 (50 +
          min ((intent.emotional_tags.map
              (fun t => (emotionalPosStep (carEmotions car) t).1)).sum +
            (intent.negative_tags.map
              (fun t => (emotionalNegStep (carEmotions car) t).2.1)).sum) 50 -
          min ((intent.negative_tags.map
            (fun t => (emotionalNegStep (carEmotions car) t).1)).sum) 40))) := by
  refine ⟨?_, ?_, ?_, ?_, ?_, ?_⟩
  · intro h1 h2
    simp [score_emotional, h1, h2]
  · intro t
    refine ⟨?_, ?_, ?_⟩
    · intro h
      simp [emotionalPosStep, h]
    · intro h hs
      simp [emotionalPosStep, h, hs]
    · intro h hs
      simp [emotionalPosStep, h, hs]
  · intro t h
    simp [emotionalNegStep, h]
  · intro t h hs
    simp [emotionalNegStep, h, hs]
  · intro t ht hexh
    have htr : (score_emotional car intent).2.2 =
        intent.negative_tags.flatMap
          (fun t => (emotionalNegStep (carEmotions car) t).2.2.2) := by
      simp only [score_emotional]
      split_ifs <;> rfl
    rw [htr]
    refine List.mem_flatMap.mpr ⟨t, ht, ?_⟩
    simp [emotionalNegStep, hexh]
  · intro h
    simp only [score_emotional]
    rw [if_neg h]

/-- C8 witness: the amended per-tag facts and tradeoff emission at the
concrete `carC`/`intentC` instance (avoided tag "boring" exhibited). -/
theorem C8_amended_emotional_witness :
    ("boring" ∈ intentC.negative_tags ∧ pyLower "boring" ∈ carEmotions carC) ∧
    ("May feel " ++ pyLower "boring") ∈ (score_emotional carC intentC).2.2 := by
  refine ⟨⟨by decide, by decide⟩, ?_⟩
  exact (C8_amended_emotional carC intentC).2.2.2.2.1 "boring" (by decide)
    (by decide)

/-- C8 counterexample: `carC` exhibits the avoided tag "boring" and also
a recorded opposite of it ("fun"); the claim's formula would add the +10
opposite bonus for a score of 35, but the source's `continue` skips the
opposite check for an exhibited tag and scores 25. -/
theorem C8_emotional_counterexample :
    "boring" ∈ carEmotions carC ∧
    (NEGATIVE_OPPOSITES "boring").any (fun s => s ∈ carEmotions carC) = true ∧
    (score_emotional carC intentC).1 = 25 ∧
    max 0 (min 100 (50 + min (10 : ℚ) 50 - min 25 40)) = 35 ∧
    (25 : ℚ) ≠ 35 := by
  refine ⟨by decide, by decide, ?_, by norm_num [min_def, max_def], by norm_num⟩
  norm_num +decide [score_emotional, carEmotions, emotionalPosStep,
    emotionalNegStep, carC, intentC, pyLower, pyLowerL, EMOTIONAL_SIMILARITIES,
    NEGATIVE_OPPOSITES, min_def, max_def]

end Carbuying
